import Mathlib

/-!
Verification of the shiviz log-parsing and causal-graph-construction core
against its specification.  The JavaScript sources embedded here are
`src/js/model/modelGraph.js` (the `ModelGraph` constructor with its helpers
`initHosts`, `initPrevNext`, `initParentChild`, `stepThroughAndVerify`, and
`ModelGraph.prototype.clone`) and the log parser (`LogParser` /
`ExecutionParser`).  JavaScript objects are embedded as association lists
preserving insertion order (matching the enumeration order of string-keyed
JS objects), JS numbers holding logical-clock values as `Int`, and thrown
exceptions as `Except` errors carrying the same data the exception objects
carry.  Leaf classes whose source files are not part of the repository
snapshot (`VectorTimestamp`, `LogEvent`, `AbstractNode`, `AbstractGraph`)
are modelled from the specification, as flagged in their doc comments.
-/

deriving instance DecidableEq for Except

/-- Association-list lookup, embedding a JS object property read: the first
binding for a key wins. -/
def alookup {α β : Type} [DecidableEq α] : List (α × β) → α → Option β
  | [], _ => none
  | (k, v) :: r, x => if k = x then some v else alookup r x

/-- Association-list write, embedding a JS object property write: an existing
key keeps its position in the enumeration order, a new key is appended. -/
def ainsert {α β : Type} [DecidableEq α] (l : List (α × β)) (k : α) (v : β) :
    List (α × β) :=
  if l.any (fun kv => kv.1 = k) then
    l.map (fun kv => if kv.1 = k then (k, v) else kv)
  else l ++ [(k, v)]

/-- Association-list removal, embedding the JS `delete` operator. -/
def aremove {α β : Type} [DecidableEq α] (l : List (α × β)) (k : α) :
    List (α × β) :=
  l.filter (fun kv => ¬ kv.1 = k)

/-- JS array read `l[i]` with an `Int` index: `undefined` (here `none`) for
an index that is negative or past the end. -/
def jsIndex {α : Type} (l : List α) (i : Int) : Option α :=
  if i < 0 then none else l.get? i.toNat

/-- Modelled from the spec: the `VectorTimestamp` class (its source file is
not part of the repository snapshot).  "Mapping from host-id → positive
integer logical time, plus a designated owner host"; the `clock` field keeps
the JS object's entry order. -/
structure VectorTimestamp where
  clock : List (String × Int)
  ownHost : String
deriving DecidableEq, Repr

def VectorTimestamp.getOwnHost (vt : VectorTimestamp) : String := vt.ownHost

/-- The time this timestamp records for host `h`, read as `0` when the host
has no entry (the standard vector-clock reading of a missing component). -/
def VectorTimestamp.timeOf (vt : VectorTimestamp) (h : String) : Int :=
  (alookup vt.clock h).getD 0

/-- Modelled from the spec: "owner's entry equals the owner's own time". -/
def VectorTimestamp.getOwnTime (vt : VectorTimestamp) : Int :=
  vt.timeOf vt.ownHost

/-- Pointwise `≤` between vector timestamps. -/
def VectorTimestamp.leq (a b : VectorTimestamp) : Bool :=
  a.clock.all (fun kv => decide (a.timeOf kv.1 ≤ b.timeOf kv.1))

/-- The 4-way result of `comparePartialOrder`. -/
inductive CompResult
  | before
  | after
  | concurrent
  | equal
deriving DecidableEq, Repr

/-- Modelled from the spec: `comparePartialOrder(other)`: "full pointwise
comparison; returns a 4-way result (before/after/concurrent/equal)",
"A ≤ B pointwise ⇒ before-or-equal; neither ≤ the other ⇒ concurrent". -/
def VectorTimestamp.comparePartialOrder (a b : VectorTimestamp) : CompResult :=
  if a.leq b then (if b.leq a then .equal else .before)
  else (if b.leq a then .after else .concurrent)

/-- Swapping the arguments of a comparison swaps before with after and fixes
concurrent and equal. -/
def CompResult.inv : CompResult → CompResult
  | .before => .after
  | .after => .before
  | .concurrent => .concurrent
  | .equal => .equal

/-- The spec's validity invariant for a vector timestamp: all entries are at
least `1` and the owner host has an entry. -/
def VectorTimestamp.valid (vt : VectorTimestamp) : Prop :=
  (∀ kv ∈ vt.clock, 1 ≤ kv.2) ∧ (alookup vt.clock vt.ownHost).isSome

instance (vt : VectorTimestamp) : Decidable vt.valid := by
  unfold VectorTimestamp.valid
  infer_instance

theorem VectorTimestamp.leq_refl (a : VectorTimestamp) : a.leq a = true := by
  unfold VectorTimestamp.leq
  rw [List.all_eq_true]
  intro kv _
  simp

/-- C8: for all valid vector timestamps `A` and `B`, `comparePartialOrder`
applied to the swapped pair returns the inverse result (before swaps with
after; concurrent and equal are fixed), and comparing a timestamp with
itself returns `equal`. -/
theorem claim_C8_compare_inverse (A B : VectorTimestamp)
    (hA : A.valid) (hB : B.valid) :
    B.comparePartialOrder A = (A.comparePartialOrder B).inv ∧
    A.comparePartialOrder A = .equal := by
  constructor
  · unfold VectorTimestamp.comparePartialOrder
    cases h1 : A.leq B <;> cases h2 : B.leq A <;>
      simp [h1, h2, CompResult.inv]
  · unfold VectorTimestamp.comparePartialOrder
    simp [VectorTimestamp.leq_refl]

/-- C8 witness: the theorem applied at two concrete valid timestamps. -/
theorem claim_C8_compare_inverse_witness :
    VectorTimestamp.comparePartialOrder ⟨[("b", 2)], "b"⟩ ⟨[("a", 1)], "a"⟩
      = (VectorTimestamp.comparePartialOrder ⟨[("a", 1)], "a"⟩
          ⟨[("b", 2)], "b"⟩).inv ∧
    VectorTimestamp.comparePartialOrder ⟨[("a", 1)], "a"⟩ ⟨[("a", 1)], "a"⟩
      = .equal :=
  claim_C8_compare_inverse ⟨[("a", 1)], "a"⟩ ⟨[("b", 2)], "b"⟩
    (by decide) (by decide)

/-- Modelled from the spec: a `LogEvent` — "immutable record { text,
vectorTimestamp, lineNumber, fields }"; its host is its timestamp's owner. -/
structure LogEvent where
  text : String
  vt : VectorTimestamp
  lineNumber : Int
  fields : List (String × String)
deriving DecidableEq, Repr

def LogEvent.getHost (e : LogEvent) : String := e.vt.ownHost

/-- A `ModelNode` of `modelGraph.js`, arena-embedded: the mutually referencing
JS node objects become records referring to each other by numeric node id
(`getId()`), held in the graph's node list. -/
structure ModelNode where
  id : Nat
  logEvents : List LogEvent
  host : String
  isHeadInner : Bool := false
  isTailInner : Bool := false
  prev : Option Nat := none
  next : Option Nat := none
  children : List Nat := []
  hostToParent : List (String × Nat) := []
deriving DecidableEq, Repr

def ModelNode.getHost (n : ModelNode) : String := n.host

/-- `getVT` from `modelGraph.js`: the first log event's vector timestamp
(sentinel nodes carry no events; the JS code never applies this to them). -/
def getVT (n : ModelNode) : VectorTimestamp :=
  (n.logEvents.head?.map LogEvent.vt).getD ⟨[], ""⟩

/-- `getTime` from `modelGraph.js`. -/
def getTime (n : ModelNode) : Int := (getVT n).getOwnTime

/-- The `ModelGraph` state: hosts in first-appearance order, the per-host
head/tail sentinel ids, and the arena of all nodes.  `nextId` is the id
counter from which freshly constructed nodes draw. -/
structure ModelGraph where
  hosts : List String
  hostToHead : List (String × Nat)
  hostToTail : List (String × Nat)
  nodes : List ModelNode
  nextId : Nat
deriving DecidableEq, Repr

def emptyModelGraph : ModelGraph :=
  { hosts := [], hostToHead := [], hostToTail := [], nodes := [], nextId := 0 }

def getNode (g : ModelGraph) (i : Nat) : Option ModelNode :=
  g.nodes.find? (fun n => n.id = i)

/-- Apply `f` to the node with id `i` (a JS field mutation on that node). -/
def updateNode (g : ModelGraph) (i : Nat) (f : ModelNode → ModelNode) :
    ModelGraph :=
  { g with nodes := g.nodes.map (fun n => if n.id = i then f n else n) }

def hostOfId (g : ModelGraph) (i : Nat) : String :=
  ((getNode g i).map ModelNode.getHost).getD ""

def timeOfId (g : ModelGraph) (i : Nat) : Int :=
  ((getNode g i).map getTime).getD 0

/-- The errors thrown by the `ModelGraph` constructor, carrying the same
offending nodes (and hence events) the JS exception objects carry. -/
inductive BuildError
  | clockIncrement (lastNode node : ModelNode)
  | outOfBoundsTime (node : ModelNode) (host : String) (time : Int)
deriving DecidableEq, Repr

/-- One step of `initHosts`: create a node for the event; on first sight of
its host also create the head and tail sentinels and register the host.
Node ids are drawn in creation order (event node first, then head, tail),
and the event node is appended to its host's bucket (`hostToNodes`). -/
def initHostsStep (st : ModelGraph × List (String × List ModelNode))
    (e : LogEvent) : ModelGraph × List (String × List ModelNode) :=
  let g := st.1
  let buckets := st.2
  let host := e.getHost
  let node : ModelNode := { id := g.nextId, logEvents := [e], host := host }
  match alookup buckets host with
  | some bucket =>
      ({ g with nodes := g.nodes ++ [node], nextId := g.nextId + 1 },
        ainsert buckets host (bucket ++ [node]))
  | none =>
      let head : ModelNode :=
        { id := g.nextId + 1, logEvents := [], host := host,
          isHeadInner := true, prev := none, next := some (g.nextId + 2) }
      let tail : ModelNode :=
        { id := g.nextId + 2, logEvents := [], host := host,
          isTailInner := true, prev := some (g.nextId + 1), next := none }
      ({ g with
          hosts := g.hosts ++ [host],
          hostToHead := g.hostToHead ++ [(host, head.id)],
          hostToTail := g.hostToTail ++ [(host, tail.id)],
          nodes := g.nodes ++ [node, head, tail],
          nextId := g.nextId + 3 },
        buckets ++ [(host, [node])])

/-- `initHosts` from `modelGraph.js`, also returning the `hostToNodes`
buckets (per-host node lists in input order). -/
def initHosts (logEvents : List LogEvent) :
    ModelGraph × List (String × List ModelNode) :=
  logEvents.foldl initHostsStep (emptyModelGraph, [])

/-- Stable insertion sort by local time, embedding
`array.sort((a, b) => getVT(a).compareToLocal(getVT(b)))`: `compareToLocal`
(modelled from the spec) "compares using only the two timestamps' own-host
local-time components", and the JS `Array.prototype.sort` is stable. -/
def insertByTime (a : ModelNode) : List ModelNode → List ModelNode
  | [] => [a]
  | b :: r => if getTime b ≤ getTime a then b :: insertByTime a r else a :: b :: r

def sortByTime (l : List ModelNode) : List ModelNode :=
  l.foldr insertByTime []

/-- The monotonicity check of `initPrevNext`: starting from
`currTime = getTime(array[0]) - 1`, each node's own time must be exactly
`currTime + 1`; a violation throws the clock-increment exception naming the
previous node and the offending node.  (At index 0 the check compares the
first node's time with itself and can never fail, so the sequence may start
anywhere — the sliding-window accommodation.) -/
def checkIncrementsFrom (prev : ModelNode) :
    List ModelNode → Except BuildError Unit
  | [] => .ok ()
  | n :: r =>
      if getTime n = getTime prev + 1 then checkIncrementsFrom n r
      else .error (.clockIncrement prev n)

def checkIncrements : List ModelNode → Except BuildError Unit
  | [] => .ok ()
  | n :: r => checkIncrementsFrom n r

/-- Modelled from the spec: `AbstractNode.insertNext` (source not in the
snapshot) — splice `newId` into the doubly linked chain right after
`lastId`. -/
def insertNext (g : ModelGraph) (lastId newId : Nat) : ModelGraph :=
  match (getNode g lastId).bind ModelNode.next with
  | none => g
  | some afterId =>
      let g := updateNode g newId
        (fun n => { n with prev := some lastId, next := some afterId })
      let g := updateNode g lastId (fun n => { n with next := some newId })
      updateNode g afterId (fun n => { n with prev := some newId })

/-- The linking loop of `initPrevNext`: starting from the host's head
sentinel, insert the sorted nodes one after another. -/
def linkChain (g : ModelGraph) (host : String) (sorted : List ModelNode) :
    ModelGraph :=
  (sorted.foldl (fun st n => (insertNext st.1 st.2 n.id, n.id))
    (g, (alookup g.hostToHead host).getD 0)).1

/-- `initPrevNext` from `modelGraph.js`: per host (in first-appearance
order) sort the bucket by local time, record
`hostToStartTime[host] = getTime(array[0]) - 1`, run the monotonicity
check, and splice the sorted nodes into the host's chain.  Returns the
sorted buckets and the start times alongside the graph. -/
def initPrevNext (g : ModelGraph)
    (buckets : List (String × List ModelNode)) :
    Except BuildError
      (ModelGraph × List (String × List ModelNode) × List (String × Int)) :=
  buckets.foldlM
    (fun st hb => do
      let sorted := sortByTime hb.2
      let starts := match sorted with
        | [] => st.2.2
        | n :: _ => st.2.2 ++ [(hb.1, getTime n - 1)]
      checkIncrements sorted
      pure (linkChain st.1 hb.1 sorted, st.2.1 ++ [(hb.1, sorted)], starts))
    (g, [], [])

/-- Per-host data consulted during edge inference for a referenced host:
its `hostToStartTime` entry and its (sorted) `hostToNodes` bucket.  `none`
embeds `hostSet[otherHost] == undefined`. -/
def hostInfoOf (buckets : List (String × List ModelNode))
    (starts : List (String × Int)) (h : String) :
    Option (Int × List ModelNode) :=
  match alookup starts h, alookup buckets h with
  | some s, some b => some (s, b)
  | _, _ => none

/-- One vector-clock entry of `initParentChild`'s candidate scan, embedding
lines 154–181 of `modelGraph.js`: if the entry's time increased relative to
the running `clock` map, update the map; a referenced host missing from
`hostSet` is skipped silently (`continue`); a time below 1 or above
`hostToStartTime[otherHost] + hostToNodes[otherHost].length` throws the
out-of-bounds exception naming the current node; otherwise the bucket entry
at index `time - start - 1` becomes a candidate (`undefined` — a negative
index — contributes none). -/
def processEntry (currNode : ModelNode)
    (hostInfo : String → Option (Int × List ModelNode))
    (st : List (String × Int) × List ModelNode) (entry : String × Int) :
    Except BuildError (List (String × Int) × List ModelNode) :=
  let otherHost := entry.1
  let time := entry.2
  let increased := match alookup st.1 otherHost with
    | none => true
    | some v => v < time
  if increased then
    let clock := ainsert st.1 otherHost time
    match hostInfo otherHost with
    | none => .ok (clock, st.2)
    | some (start, bucket) =>
        if time < 1 ∨ start + bucket.length < time then
          .error (.outOfBoundsTime currNode otherHost time)
        else
          match jsIndex bucket (time - start - 1) with
          | none => .ok (clock, st.2)
          | some cand => .ok (clock, st.2 ++ [cand])
  else .ok st

/-- Modelled from the spec: `AbstractNode.addParent` (source not in the
snapshot) — "a child may have at most one parent per host", so offering a
new parent replaces the child's same-host parent entry; the child is
recorded in the parent's children set.  Offering the current parent again
is a no-op. -/
def addParent (g : ModelGraph) (childId parentId : Nat) : ModelGraph :=
  let ph := hostOfId g parentId
  let current := (getNode g childId).bind
    (fun c => alookup c.hostToParent ph)
  if current = some parentId then g
  else
    let g := updateNode g childId
      (fun c => { c with hostToParent := ainsert c.hostToParent ph parentId })
    updateNode g parentId
      (fun p => { p with children := p.children ++ [childId] })

/-- Modelled from the spec: `AbstractNode.addChild`, the symmetric view of
`addParent` used by `clone` — "edges rebuilt by identity lookup". -/
def addChild (g : ModelGraph) (parentId childId : Nat) : ModelGraph :=
  addParent g childId parentId

/-- One step of the keep-loop of `initParentChild` (lines 206–218 of
`modelGraph.js`): a connection becomes the parent when the current node has
no parent on that host yet, or when its local time exceeds the current
same-host parent's. -/
def keepStep (currId : Nat) (g : ModelGraph) (node : ModelNode) : ModelGraph :=
  let currParentOnHost := (getNode g currId).bind
    (fun c => alookup c.hostToParent node.getHost)
  match currParentOnHost with
  | none => addParent g currId node.id
  | some pid =>
      if timeOfId g pid < getTime node then addParent g currId node.id else g

/-- The connection key `vt.getOwnHost() + ":" + vt.getOwnTime()`. -/
def connKey (h : String) (t : Int) : String := h ++ ":" ++ toString t

/-- Processing of one chain node inside `initParentChild`: refresh the
running clock with the node's own time, scan its vector-clock entries for
candidates, deduplicate them into `connections` keyed by owner host and
time, delete every connection that some candidate's own timestamp already
covers on a foreign host (not a direct predecessor), and run the keep-loop
over the surviving connections. -/
def processNode (hostInfo : String → Option (Int × List ModelNode))
    (host : String) (st : ModelGraph × List (String × Int))
    (curr : ModelNode) :
    Except BuildError (ModelGraph × List (String × Int)) := do
  let currVT := getVT curr
  let clock := ainsert st.2 host currVT.getOwnTime
  let (clock, candidates) ←
    currVT.clock.foldlM (processEntry curr hostInfo) (clock, [])
  let connections := candidates.foldl
    (fun conns c =>
      ainsert conns (connKey (getVT c).getOwnHost (getVT c).getOwnTime) c)
    []
  let connections := candidates.foldl
    (fun conns c =>
      (getVT c).clock.foldl
        (fun conns kv =>
          if kv.1 = (getVT c).getOwnHost then conns
          else aremove conns (connKey kv.1 kv.2))
        conns)
    connections
  let g := connections.foldl (fun g kc => keepStep curr.id g kc.2) st.1
  pure (g, clock)

/-- `initParentChild` from `modelGraph.js`: for each host (in
first-appearance order) walk that host's chain — which after
`initPrevNext` holds exactly the sorted bucket between the head and tail
sentinels — with a fresh running clock. -/
def initParentChild (hostInfo : String → Option (Int × List ModelNode))
    (g : ModelGraph) (buckets : List (String × List ModelNode)) :
    Except BuildError ModelGraph :=
  buckets.foldlM
    (fun g hb => do
      let (g, _) ← hb.2.foldlM (processNode hostInfo hb.1) (g, [])
      pure g)
    g

/-- The `ModelGraph` constructor: `initHosts(); initPrevNext();
initParentChild();` — note that `stepThroughAndVerify` is defined in the
constructor but not invoked by it. -/
def buildModelGraph (logEvents : List LogEvent) :
    Except BuildError ModelGraph := do
  let (g, buckets) := initHosts logEvents
  let (g, sortedBuckets, starts) ← initPrevNext g buckets
  initParentChild (hostInfoOf sortedBuckets starts) g sortedBuckets

/-- Modelled from the spec: `VectorTimestamp.update` — "merge(other) =
pointwise maximum". -/
def VectorTimestamp.update (a b : VectorTimestamp) : VectorTimestamp :=
  ⟨a.clock.map (fun kv => (kv.1, max (a.timeOf kv.1) (b.timeOf kv.1))) ++
    ((b.clock.filter (fun kv => (alookup a.clock kv.1).isNone)).map
      (fun kv => (kv.1, b.timeOf kv.1))),
   a.ownHost⟩

/-- Modelled from the spec: timestamp equality, the `equal` case of the
pointwise comparison. -/
def VectorTimestamp.equalsB (a b : VectorTimestamp) : Bool :=
  a.leq b && b.leq a

/-- Walk a host's chain from a node id along `next` pointers, stopping at
the tail sentinel; the fuel (always instantiated with the arena size, an
upper bound on chain length) only makes the recursion structural. -/
def chainWalk (g : ModelGraph) : Nat → Option Nat → List ModelNode
  | 0, _ => []
  | _, none => []
  | fuel + 1, some i =>
      match getNode g i with
      | none => []
      | some n => if n.isTailInner then [] else n :: chainWalk g fuel n.next

/-- The non-sentinel nodes of a host's chain, `getHead(host).getNext()`
onwards. -/
def chainNodes (g : ModelGraph) (host : String) : List ModelNode :=
  chainWalk g g.nodes.length
    ((alookup g.hostToHead host).bind (fun h => (getNode g h).bind ModelNode.next))

/-- The `clocks` table initialization of `stepThroughAndVerify`:
`clocks[host][time]` for `time = 1, 2, …` along each host's chain is seeded
with the singleton clock `{host: time}`. -/
def initClocks (g : ModelGraph) : List ((String × Int) × VectorTimestamp) :=
  g.hosts.foldl
    (fun acc host =>
      acc ++ (List.range (chainNodes g host).length).map
        (fun i =>
          ((host, ((i : Int) + 1)),
            (⟨[(host, (i : Int) + 1)], host⟩ : VectorTimestamp))))
    []

/-- An edge followed by the verification pass: an explicit parent/child
edge or the intra-host `next` edge (between non-sentinel nodes). -/
def verifyEdge (m n : ModelNode) : Bool :=
  m.children.contains n.id || m.next == some n.id

/-- Modelled from the spec: `AbstractGraph.getNodesTopologicallySorted`
(source not in the snapshot) — Kahn's algorithm over the union of
intra-host next edges and cross-host child edges; failure signals a
cycle.  The fuel, instantiated with the node count, bounds the rounds. -/
def topoGo (g : ModelGraph) :
    Nat → List ModelNode → List ModelNode → Except Unit (List ModelNode)
  | _, [], acc => .ok acc
  | 0, _ :: _, _ => .error ()
  | fuel + 1, remaining, acc =>
      let ready := remaining.filter
        (fun n => !(remaining.any (fun m => decide (m.id ≠ n.id) && verifyEdge m n)))
      if ready.isEmpty then .error ()
      else
        topoGo g fuel
          (remaining.filter (fun n => !(ready.any (fun r => r.id = n.id))))
          (acc ++ ready)

def getNodesTopologicallySorted (g : ModelGraph) :
    Except Unit (List ModelNode) :=
  let real := g.nodes.filter (fun n => !n.isHeadInner && !n.isTailInner)
  topoGo g real.length real []

/-- The errors of `stepThroughAndVerify`.  `jsUndefined` marks the reads
`clocks[childHost][childTime]` / `clocks[host][time]` of an entry that was
never seeded (possible under a non-unit window start, where the table is
keyed by chain position but read by own time); there the JS code would fail
with a TypeError. -/
inductive VerifyError
  | intransitivity
  | impermissibleClock (node : ModelNode) (expected : VectorTimestamp)
  | jsUndefined
deriving DecidableEq, Repr

/-- The body of the verification loop for one node of the topological
order: propagate this node's derived clock into each child's (children
plus the next node when it is not the tail), then require the node's
derived clock to equal its parsed timestamp. -/
def verifyNodeStep (g : ModelGraph)
    (clocks : List ((String × Int) × VectorTimestamp)) (curr : ModelNode) :
    Except VerifyError (List ((String × Int) × VectorTimestamp)) := do
  let host := curr.getHost
  let time := (getVT curr).getOwnTime
  let childIds := curr.children ++
    (match curr.next with
      | some nid =>
          match getNode g nid with
          | some nx => if nx.isTailInner then [] else [nid]
          | none => []
      | none => [])
  let clocks ← childIds.foldlM
    (fun clocks cid =>
      match getNode g cid with
      | none => .error .jsUndefined
      | some child =>
          let ch := child.getHost
          let ct := (getVT child).getOwnTime
          match alookup clocks (ch, ct), alookup clocks (host, time) with
          | some cvt, some mvt =>
              .ok (ainsert clocks (ch, ct) (cvt.update mvt))
          | _, _ => .error .jsUndefined)
    clocks
  match alookup clocks (host, time) with
  | none => .error .jsUndefined
  | some myvt =>
      if myvt.equalsB (getVT curr) then .ok clocks
      else .error (.impermissibleClock curr myvt)

/-- `stepThroughAndVerify` from `modelGraph.js` (defined inside the
constructor but never invoked by it): re-derive every node's vector clock
by topologically sorting the graph and forward-propagating merges, and
reject any node whose derived clock differs from its parsed timestamp. -/
def stepThroughAndVerify (g : ModelGraph) : Except VerifyError Unit := do
  let clocks := initClocks g
  match getNodesTopologicallySorted g with
  | .error _ => .error .intransitivity
  | .ok sortedNodes => do
      let _ ← sortedNodes.foldlM (verifyNodeStep g) clocks
      pure ()

/-- The old-to-new node index of `ModelGraph.prototype.clone`
(`oldToNewNode`): the i-th node of the arena maps to the fresh id
`g.nextId + i`, past every id the original graph has handed out. -/
def oldToNewList (base : Nat) : List ModelNode → List (Nat × Nat)
  | [] => []
  | n :: r => (n.id, base) :: oldToNewList (base + 1) r

def oldToNew (g : ModelGraph) : List (Nat × Nat) :=
  oldToNewList g.nextId g.nodes

def cloneF (g : ModelGraph) (i : Nat) : Nat := (alookup (oldToNew g) i).getD 0

/-- The first pass of `clone`: `new ModelNode(node.getLogEvents())` for
every original node, copying host and the head/tail markers (per-node
rendering metadata is outside the embedded core), with no edges yet. -/
def cloneNodesInitList (base : Nat) : List ModelNode → List ModelNode
  | [] => []
  | n :: r =>
      { id := base, logEvents := n.logEvents, host := n.host,
        isHeadInner := n.isHeadInner, isTailInner := n.isTailInner } ::
        cloneNodesInitList (base + 1) r

def cloneNodesInit (g : ModelGraph) : List ModelNode :=
  cloneNodesInitList g.nextId g.nodes

/-- The clone after the first pass: `new ModelGraph([])` with the host list
copied and the fresh head/tail maps rebuilt through the old-to-new index. -/
def cloneStart (g : ModelGraph) : ModelGraph :=
  { hosts := g.hosts,
    hostToHead := g.hostToHead.map (fun kv => (kv.1, cloneF g kv.2)),
    hostToTail := g.hostToTail.map (fun kv => (kv.1, cloneF g kv.2)),
    nodes := cloneNodesInit g,
    nextId := g.nextId + g.nodes.length }

/-- The second pass of `clone` for one original node: set the new node's
`prev`/`next` (when the original's are non-null) and re-add each child
through the old-to-new index. -/
def cloneEdgesStep (g0 : ModelGraph) (acc : ModelGraph) (n : ModelNode) :
    ModelGraph :=
  let acc := match n.prev with
    | none => acc
    | some p =>
        updateNode acc (cloneF g0 n.id)
          (fun m => { m with prev := some (cloneF g0 p) })
  let acc := match n.next with
    | none => acc
    | some q =>
        updateNode acc (cloneF g0 n.id)
          (fun m => { m with next := some (cloneF g0 q) })
  n.children.foldl
    (fun acc c => addChild acc (cloneF g0 n.id) (cloneF g0 c)) acc

/-- `ModelGraph.prototype.clone`. -/
def cloneGraph (g : ModelGraph) : ModelGraph :=
  g.nodes.foldl (cloneEdgesStep g) (cloneStart g)

/-- JS whitespace as stripped by `String.prototype.trim`. -/
def jsWhitespace (c : Char) : Bool :=
  c = ' ' || c = '\t' || c = '\n' || c = '\r'

/-- `chunk.trim().length > 0`: the chunk has a non-whitespace character. -/
def trimNonempty (s : String) : Bool :=
  s.toList.any (fun c => !jsWhitespace c)

/-- The property key a JS object read/write coerces a label to:
`executions[undefined]` uses the key string `"undefined"`. -/
def keyOfLabel : Option String → String
  | some s => s
  | none => "undefined"

/-- `currLabels` of the `LogParser` constructor: `[""]`, extended by the
`trace` capture of each delimiter match only when the delimiter regex has a
`trace` group. -/
def chunkLabels (hasTrace : Bool) (traces : List String) : List String :=
  "" :: (if hasTrace then traces else [])

/-- The execution-collection loop of the `LogParser` constructor over the
split chunks: a chunk that trims to empty is discarded; a retained chunk at
index `i` is labeled `currLabels[i]` (`none` embeds the JS `undefined` read
past the end of `currLabels`); a label whose property key was already used
is a fatal duplicate-label error. -/
def splitExecs :
    List String → List String → List String →
      Except String (List (Option String × String))
  | [], _, _ => .ok []
  | c :: rest, labels, seen =>
      if trimNonempty c then
        let lbl := labels.head?
        let key := keyOfLabel lbl
        if seen.contains key then .error key
        else
          match splitExecs rest labels.tail (seen ++ [key]) with
          | .error e => .error e
          | .ok r => .ok ((lbl, c) :: r)
      else splitExecs rest labels.tail seen

/-- The delimiter handling of the `LogParser` constructor, with the regex
engine treated as an oracle: `chunks` is `rawString.split(delimiter.no)`
and `traces` the `trace` captures of the successive delimiter matches. -/
def logParserExecs (chunks : List String) (hasTrace : Bool)
    (traces : List String) : Except String (List (Option String × String)) :=
  splitExecs chunks (chunkLabels hasTrace traces) []

/-- The field-map construction of the `ExecutionParser` match loop: every
named capture group except `clock` and `event` is stored as a field (the
regex engine's match is the oracle `matchVal`). -/
def mkFields (names : List String) (matchVal : String → String) :
    List (String × String) :=
  match names with
  | [] => []
  | n :: rest =>
      if n = "clock" ∨ n = "event" then mkFields rest matchVal
      else (n, matchVal n) :: mkFields rest matchVal

/-- The `ExecutionParser` match loop's line-number computation: one plus
the number of newlines before the match start (1 when there are none). -/
def lineNumberOfMatch (raw : String) (idx : Nat) : Nat :=
  ((raw.toList.take idx).filter (fun c => c = '\n')).length + 1

/-- `clockString.replace(/\\\"/g, "\"")`: un-escape backslash-escaped
quotes. -/
def unescapeQuotes : List Char → List Char
  | [] => []
  | '\\' :: '"' :: r => '"' :: unescapeQuotes r
  | c :: r => c :: unescapeQuotes r

def unescapeQuotesStr (s : String) : String := ⟨unescapeQuotes s.toList⟩

/-- The data carried by the timestamp-format exception of
`parseStringTimestamp`: the line number shown in the message
(`"on line " + (line + 1)`), the clock text appended as a user-visible code
annotation (absent when the string is empty, i.e. falsy), and the
user-friendly flag. -/
structure TimestampFormatError where
  lineShown : Nat
  annotation : Option String
  userFriendly : Bool
deriving DecidableEq, Repr

/-- `parseStringTimestamp` from the `ExecutionParser`: attempt a JSON parse
of the clock string, retry after un-escaping backslash-escaped quotes, and
on a second failure throw the timestamp-format exception.  The JSON parser
is the oracle `jsonParse`; a successful parse yields the vector timestamp
scoped to the extracted host. -/
def parseStringTimestamp
    (jsonParse : String → Option (List (String × Int)))
    (clockString hostString : String) (line : Nat) :
    Except TimestampFormatError VectorTimestamp :=
  match jsonParse clockString with
  | some clock => .ok ⟨clock, hostString⟩
  | none =>
      let cs := unescapeQuotesStr clockString
      match jsonParse cs with
      | some clock => .ok ⟨clock, hostString⟩
      | none =>
          .error
            { lineShown := line + 1,
              annotation := if cs = "" then none else some cs,
              userFriendly := !(cs == "") }

/-- A JSON-parse oracle for clock strings on which both parse attempts
fail (e.g. text that is not JSON at all). -/
def jpFail : String → Option (List (String × Int)) := fun _ => none

/-- A single event whose clock references a host absent from the window:
construction skips the entry silently, so the parsed clock can never be
re-derived from the graph's edges. -/
def exC1Events : List LogEvent :=
  [⟨"x", ⟨[("h1", 1), ("h2", 5)], "h1"⟩, 1, []⟩]

def exC1Graph : ModelGraph :=
  ((buildModelGraph exC1Events).toOption).getD emptyModelGraph

/-- Two events whose clocks claim to have seen each other, producing a
cycle of parent edges. -/
def exC1CycleEvents : List LogEvent :=
  [⟨"p", ⟨[("h1", 1), ("h2", 1)], "h1"⟩, 1, []⟩,
   ⟨"q", ⟨[("h2", 1), ("h1", 1)], "h2"⟩, 2, []⟩]

def exC1CycleGraph : ModelGraph :=
  ((buildModelGraph exC1CycleEvents).toOption).getD emptyModelGraph

def isImpermissibleClock : Except VerifyError Unit → Bool
  | .error (.impermissibleClock _ _) => true
  | _ => false

/-- C1 counterexample: the claim says no graph violating vector-clock
consistency is ever returned, but the constructor returns the graph for
`exC1Events` even though the verification routine rejects it — the
constructor calls only `initHosts(); initPrevNext(); initParentChild();`
and never invokes `stepThroughAndVerify`. -/
theorem claim_C1_counterexample :
    buildModelGraph exC1Events = .ok exC1Graph ∧
    stepThroughAndVerify exC1Graph ≠ .ok () := by
  decide

/-- C1 amended: building the graph performs no global consistency
verification — `stepThroughAndVerify` is defined inside the constructor
but never invoked, so graphs with impermissible clocks, and even graphs
whose edges form a cycle, are returned to callers; running the
verification routine manually on those returned graphs raises
`ImpermissibleClockError` resp. `IntransitivityError` as described. -/
theorem claim_C1_no_verification_on_build :
    buildModelGraph exC1Events = .ok exC1Graph ∧
    isImpermissibleClock (stepThroughAndVerify exC1Graph) = true ∧
    buildModelGraph exC1CycleEvents = .ok exC1CycleGraph ∧
    stepThroughAndVerify exC1CycleGraph = .error .intransitivity := by
  decide

theorem list_get?_tail {α : Type} (l : List α) (n : Nat) :
    l.tail.get? n = l.get? (n + 1) := by
  cases l <;> rfl

theorem splitExecs_mem (chunks : List String) :
    ∀ (labels seen : List String) (execs : List (Option String × String)),
      splitExecs chunks labels seen = .ok execs →
      ∀ (i : Nat) (hi : i < chunks.length),
        trimNonempty (chunks.get ⟨i, hi⟩) = true →
        (labels.get? i, chunks.get ⟨i, hi⟩) ∈ execs := by
  induction chunks with
  | nil =>
      intro labels seen execs _ i hi
      exact absurd hi (by simp)
  | cons c rest ih =>
      intro labels seen execs h i hi hret
      simp only [splitExecs] at h
      split at h
      · split at h
        · cases h
        · split at h
          · cases h
          · next r hr =>
              cases h
              cases i with
              | zero =>
                  have hh : labels.get? 0 = labels.head? := by
                    cases labels <;> rfl
                  simp only [List.get, hh]
                  exact List.mem_cons_self _ _
              | succ j =>
                  have hj : j < rest.length := Nat.lt_of_succ_lt_succ hi
                  have hm := ih labels.tail _ r hr j hj (by simpa using hret)
                  rw [list_get?_tail] at hm
                  exact List.mem_cons_of_mem _ (by simpa using hm)
      · next hc =>
          cases i with
          | zero => exact absurd hret hc
          | succ j =>
              have hj : j < rest.length := Nat.lt_of_succ_lt_succ hi
              have hm := ih labels.tail seen execs h j hj (by simpa using hret)
              rw [list_get?_tail] at hm
              simpa using hm

/-- C4 corrected: a retained chunk at index `i ≥ 1` (one that follows the
`i`-th delimiter match) is labeled `currLabels[i]`, which is the `trace`
capture of that match when the delimiter regex has a `trace` group — but
the JS `undefined` (not the empty string) when it has none, since
`currLabels` then stays `[""]`. -/
theorem claim_C4_labels (chunks : List String) (hasTrace : Bool)
    (traces : List String) (execs : List (Option String × String))
    (h : logParserExecs chunks hasTrace traces = .ok execs)
    (i : Nat) (hi : i < chunks.length) (h0 : 0 < i)
    (hret : trimNonempty (chunks.get ⟨i, hi⟩) = true) :
    ((chunkLabels hasTrace traces).get? i, chunks.get ⟨i, hi⟩) ∈ execs ∧
    (chunkLabels true traces).get? i = traces.get? (i - 1) ∧
    (chunkLabels false traces).get? i = none := by
  refine ⟨splitExecs_mem chunks _ _ execs h i hi hret, ?_, ?_⟩
  · cases i with
    | zero => cases h0
    | succ j => simp [chunkLabels]
  · cases i with
    | zero => cases h0
    | succ j => simp [chunkLabels]

/-- C4 witness: the theorem applied to the two-chunk input `["a", "b"]`
with a `trace`-labeled delimiter. -/
theorem claim_C4_labels_witness :
    ((chunkLabels true ["t1"]).get? 1,
        (["a", "b"] : List String).get ⟨1, by decide⟩)
      ∈ [((some "" : Option String), "a"), (some "t1", "b")] ∧
    (chunkLabels true ["t1"]).get? 1 = (["t1"] : List String).get? 0 ∧
    (chunkLabels false ["t1"]).get? 1 = none :=
  claim_C4_labels ["a", "b"] true ["t1"]
    [(some "", "a"), (some "t1", "b")] (by decide) 1 (by decide)
    (by decide) (by decide)

/-- C4 counterexample: with no `trace` capture group, the chunk after the
first delimiter is labeled `undefined` (`none`), not the empty string as
the claim states. -/
theorem claim_C4_counterexample :
    logParserExecs ["x", "y"] false [] =
      .ok [((some "" : Option String), "x"), ((none : Option String), "y")] ∧
    ((some "", "y") ∉
      [((some "" : Option String), "x"), ((none : Option String), "y")]) := by
  decide

/-- C5 corrected: the field map holds exactly the named capture groups
other than `clock` and `event` — the `host` capture is extracted into its
own attribute but, unlike the claim states, it is also stored as a
free-form field. -/
theorem claim_C5_fields (names : List String) (m : String → String) :
    mkFields names m =
      (names.filter (fun n => !(n == "clock" || n == "event"))).map
        (fun n => (n, m n)) ∧
    ("host" ∈ names → ("host", m "host") ∈ mkFields names m) := by
  constructor
  · induction names with
    | nil => rfl
    | cons n rest ih =>
        show (if n = "clock" ∨ n = "event" then mkFields rest m
          else (n, m n) :: mkFields rest m) = _
        rw [List.filter_cons]
        by_cases h : n = "clock" ∨ n = "event"
        · have hb : (!(n == "clock" || n == "event")) = false := by
            rcases h with h | h <;> simp [h]
          rw [if_pos h, hb]
          simpa using ih
        · have hb : (!(n == "clock" || n == "event")) = true := by
            push_neg at h
            simp [h.1, h.2]
          rw [if_neg h, hb]
          simpa using ih
  · intro hmem
    induction names with
    | nil => cases hmem
    | cons n rest ih =>
        rcases List.mem_cons.mp hmem with h | h
        · subst h
          simp [mkFields]
        · by_cases hn : n = "clock" ∨ n = "event"
          · simpa [mkFields, hn] using ih h
          · simp only [mkFields, if_neg hn]
            exact List.mem_cons_of_mem _ (ih h)

/-- C5 witness: the theorem applied to a pattern with the three mandatory
groups and one extra group. -/
theorem claim_C5_fields_witness :
    ("host", "host!") ∈
      mkFields ["clock", "host", "event", "pid"] (fun n => n ++ "!") :=
  (claim_C5_fields ["clock", "host", "event", "pid"]
    (fun n => n ++ "!")).2 (by decide)

/-- C5 counterexample: for a pattern whose only named groups are `clock`,
`host` and `event`, the claim predicts an empty field map, but the code
stores the `host` capture as a field. -/
theorem claim_C5_counterexample :
    mkFields ["clock", "host", "event"] (fun n => n ++ "!")
      = [("host", "host!")] ∧
    [("host", "host!")] ≠ ([] : List (String × String)) := by
  decide

/-- C9 corrected: after both JSON parse attempts fail, the thrown
timestamp-format exception shows `line + 1` — one more than the 1-based
line number computed by counting newlines before the match start — and
annotates the clock text after un-escaping backslash-escaped quotes rather
than the raw clock text. -/
theorem claim_C9_error_contents
    (jsonParse : String → Option (List (String × Int)))
    (clockString hostString : String) (line : Nat)
    (h1 : jsonParse clockString = none)
    (h2 : jsonParse (unescapeQuotesStr clockString) = none) :
    parseStringTimestamp jsonParse clockString hostString line =
      .error
        { lineShown := line + 1,
          annotation :=
            if unescapeQuotesStr clockString = "" then none
            else some (unescapeQuotesStr clockString),
          userFriendly := !(unescapeQuotesStr clockString == "") } := by
  unfold parseStringTimestamp
  simp only [h1, h2]

/-- C9 witness: the theorem applied to a clock string on which both parse
attempts fail. -/
theorem claim_C9_error_contents_witness :
    parseStringTimestamp jpFail "zzz" "h1" 1 =
      .error { lineShown := 2, annotation := some "zzz",
               userFriendly := true } := by
  rw [claim_C9_error_contents jpFail "zzz" "h1" 1 rfl rfl]
  decide

/-- C9 counterexample: for an unparsable clock on the first line the
1-based line number is 1, but the exception shows line 2; and for a clock
containing backslash-escaped quotes the annotation is the un-escaped text,
not the raw clock text. -/
theorem claim_C9_counterexample :
    parseStringTimestamp jpFail "zzz" "h1" (lineNumberOfMatch "zzz b c" 0) =
      .error { lineShown := 2, annotation := some "zzz",
               userFriendly := true } ∧
    lineNumberOfMatch "zzz b c" 0 = 1 ∧
    parseStringTimestamp jpFail "\\\"zz" "h1" 1 =
      .error { lineShown := 2, annotation := some "\"zz",
               userFriendly := true } ∧
    "\"zz" ≠ "\\\"zz" := by
  decide

/-- C2: during the candidate scan, for an entry whose time increased
relative to the running clock: a referenced host absent from the host set
is skipped silently (the clock map is still updated, no candidate, no
error), while a present host with a time below 1 or above its window start
plus its observed event count is a fatal out-of-bounds error naming the
offending node. -/
theorem claim_C2_entry_bounds (currNode : ModelNode)
    (hostInfo : String → Option (Int × List ModelNode))
    (clock : List (String × Int)) (candidates : List ModelNode)
    (oh : String) (t : Int)
    (hinc : alookup clock oh = none ∨
      ∃ v, alookup clock oh = some v ∧ v < t) :
    (hostInfo oh = none →
      processEntry currNode hostInfo (clock, candidates) (oh, t) =
        .ok (ainsert clock oh t, candidates)) ∧
    (∀ start bucket, hostInfo oh = some (start, bucket) →
      (t < 1 ∨ start + (bucket.length : Int) < t) →
      processEntry currNode hostInfo (clock, candidates) (oh, t) =
        .error (.outOfBoundsTime currNode oh t)) := by
  constructor
  · intro hno
    rcases hinc with h | ⟨v, hv, hlt⟩
    · simp [processEntry, h, hno]
    · simp [processEntry, hv, hlt, hno]
  · intro start bucket hsome hout
    rcases hinc with h | ⟨v, hv, hlt⟩
    · simp only [processEntry, h, hsome, if_true]
      simp only [if_pos hout]
    · simp only [processEntry, hv, hsome]
      rw [if_pos (by simpa using hlt)]
      simp only [if_pos hout]

def exC2Node : ModelNode :=
  { id := 0, logEvents := [⟨"e", ⟨[("h1", 1)], "h1"⟩, 1, []⟩], host := "h1" }

def exC2Bucket : List ModelNode :=
  [{ id := 3, logEvents := [⟨"f", ⟨[("h2", 1)], "h2"⟩, 2, []⟩],
     host := "h2" }]

def exC2HostInfo : String → Option (Int × List ModelNode) :=
  fun h => if h = "h2" then some (0, exC2Bucket) else none

/-- C2 witness: the theorem applied to an unknown host `h9` (skipped) and
to time 7 for host `h2`, whose window starts at 0 with one observed
event. -/
theorem claim_C2_entry_bounds_witness :
    processEntry exC2Node exC2HostInfo ([], []) ("h9", 2) =
      .ok (ainsert [] "h9" 2, []) ∧
    processEntry exC2Node exC2HostInfo ([], []) ("h2", 7) =
      .error (.outOfBoundsTime exC2Node "h2" 7) :=
  ⟨(claim_C2_entry_bounds exC2Node exC2HostInfo [] [] "h9" 2
      (Or.inl rfl)).1 (by decide),
   (claim_C2_entry_bounds exC2Node exC2HostInfo [] [] "h2" 7
      (Or.inl rfl)).2 0 exC2Bucket (by decide) (by decide)⟩

/-- C10: a candidate time `t` with `1 ≤ t ≤ start` for a host that is in
the host set — a reference to an event before the observed window — is
dropped silently: the running clock map is updated to `t`, but no
candidate is produced and no error is raised (the JS array read at the
negative index `t - start - 1` yields `undefined`). -/
theorem claim_C10_prewindow_dropped (currNode : ModelNode)
    (hostInfo : String → Option (Int × List ModelNode))
    (clock : List (String × Int)) (candidates : List ModelNode)
    (oh : String) (t : Int) (start : Int) (bucket : List ModelNode)
    (hinc : alookup clock oh = none ∨
      ∃ v, alookup clock oh = some v ∧ v < t)
    (hsome : hostInfo oh = some (start, bucket))
    (h1 : 1 ≤ t) (h2 : t ≤ start) :
    processEntry currNode hostInfo (clock, candidates) (oh, t) =
      .ok (ainsert clock oh t, candidates) := by
  have hnotlow : ¬ (t < 1 ∨ start + (bucket.length : Int) < t) := by
    push_neg
    constructor
    · omega
    · have : (0 : Int) ≤ (bucket.length : Int) := Int.ofNat_nonneg _
      omega
  have hneg : t - start - 1 < 0 := by omega
  rcases hinc with h | ⟨v, hv, hlt⟩
  · simp only [processEntry, h, hsome, if_true]
    rw [if_neg hnotlow]
    simp [jsIndex, hneg]
  · simp only [processEntry, hv, hsome]
    rw [if_pos (by simpa using hlt), if_neg hnotlow]
    simp [jsIndex, hneg]

def exC10HostInfo : String → Option (Int × List ModelNode) :=
  fun h => if h = "h2" then some (5, exC2Bucket) else none

/-- C10 witness: the theorem applied to time 3 for a host whose window
starts at 5. -/
theorem claim_C10_prewindow_dropped_witness :
    processEntry exC2Node exC10HostInfo ([], []) ("h2", 3) =
      .ok (ainsert [] "h2" 3, []) :=
  claim_C10_prewindow_dropped exC2Node exC10HostInfo [] [] "h2" 3 5
    exC2Bucket (Or.inl rfl) (by decide) (by decide) (by decide)

theorem checkIncrementsFrom_ok_iff (l : List ModelNode) :
    ∀ p : ModelNode,
      (checkIncrementsFrom p l = .ok () ↔
        List.Chain (fun a b => getTime b = getTime a + 1) p l) := by
  induction l with
  | nil =>
      intro p
      simp [checkIncrementsFrom]
  | cons n r ih =>
      intro p
      by_cases h : getTime n = getTime p + 1
      · simp [checkIncrementsFrom, h, ih n, List.chain_cons]
      · simp [checkIncrementsFrom, h, List.chain_cons]

theorem checkIncrementsFrom_error (l : List ModelNode) :
    ∀ (p : ModelNode) (e : BuildError),
      checkIncrementsFrom p l = .error e →
      ∃ l1 a b l2, e = .clockIncrement a b ∧
        p :: l = l1 ++ a :: b :: l2 ∧ getTime b ≠ getTime a + 1 := by
  induction l with
  | nil => intro p e h; cases h
  | cons n r ih =>
      intro p e h
      by_cases hn : getTime n = getTime p + 1
      · rw [checkIncrementsFrom, if_pos hn] at h
        obtain ⟨l1, a, b, l2, he, hsplit, hne⟩ := ih n e h
        exact ⟨p :: l1, a, b, l2, he, by rw [List.cons_append, ← hsplit], hne⟩
      · rw [checkIncrementsFrom, if_neg hn] at h
        cases h
        exact ⟨[], p, n, r, rfl, rfl, hn⟩

/-- C3: for one host's bucket, after the stable sort by local time the
monotonicity check succeeds exactly when consecutive local times increase
by exactly 1 — with no constraint on the first time, so a non-unit window
start is accepted — and a failure is a clock-increment error naming two
adjacent offending nodes of the sorted sequence whose times do not differ
by exactly 1. -/
theorem claim_C3_clock_increments (nodes : List ModelNode) :
    (checkIncrements (sortByTime nodes) = .ok () ↔
      List.Chain' (fun a b => getTime b = getTime a + 1)
        (sortByTime nodes)) ∧
    (∀ e, checkIncrements (sortByTime nodes) = .error e →
      ∃ l1 a b l2, e = .clockIncrement a b ∧
        sortByTime nodes = l1 ++ a :: b :: l2 ∧
        getTime b ≠ getTime a + 1) := by
  constructor
  · cases hs : sortByTime nodes with
    | nil => simp [checkIncrements]
    | cons n r =>
        rw [checkIncrements]
        rw [checkIncrementsFrom_ok_iff r n]
        exact Iff.rfl
  · intro e h
    cases hs : sortByTime nodes with
    | nil => rw [hs] at h; cases h
    | cons n r =>
        rw [hs, checkIncrements] at h
        obtain ⟨l1, a, b, l2, he, hsplit, hne⟩ :=
          checkIncrementsFrom_error r n e h
        exact ⟨l1, a, b, l2, he, hsplit, hne⟩

def exC3Node (t : Int) : ModelNode :=
  { id := t.toNat, logEvents := [⟨"e", ⟨[("h", t)], "h"⟩, 1, []⟩],
    host := "h" }

/-- C3 witness: the theorem applied to the window `[5, 6, 7]` (accepted
despite the non-unit start) and to the gapped window `[5, 7, 8]`, whose
failure names the nodes with times 5 and 7. -/
theorem claim_C3_clock_increments_witness :
    checkIncrements (sortByTime [exC3Node 5, exC3Node 6, exC3Node 7])
      = .ok () ∧
    (∃ l1 a b l2,
      BuildError.clockIncrement (exC3Node 5) (exC3Node 7)
        = .clockIncrement a b ∧
      sortByTime [exC3Node 5, exC3Node 7, exC3Node 8]
        = l1 ++ a :: b :: l2 ∧
      getTime b ≠ getTime a + 1) :=
  ⟨(claim_C3_clock_increments [exC3Node 5, exC3Node 6, exC3Node 7]).1.mpr
      (by
        have h : sortByTime [exC3Node 5, exC3Node 6, exC3Node 7]
            = [exC3Node 5, exC3Node 6, exC3Node 7] := by decide
        rw [h]
        exact List.Chain'.cons (by decide)
          (List.Chain'.cons (by decide) (List.chain'_singleton _))),
   (claim_C3_clock_increments [exC3Node 5, exC3Node 7, exC3Node 8]).2 _
      (by decide)⟩

theorem alookup_map_replace {α β : Type} [DecidableEq α]
    (l : List (α × β)) (k : α) (v : β)
    (h : l.any (fun kv => kv.1 = k) = true) :
    alookup (l.map (fun kv => if kv.1 = k then (k, v) else kv)) k
      = some v := by
  induction l with
  | nil => cases h
  | cons a r ih =>
      rw [List.map_cons]
      by_cases ha : a.1 = k
      · rw [if_pos ha]
        simp [alookup]
      · rw [if_neg ha]
        have hr : r.any (fun kv => kv.1 = k) = true := by
          simpa [ha] using h
        simp only [alookup]
        rw [if_neg ha]
        exact ih hr

theorem alookup_append_single {α β : Type} [DecidableEq α]
    (l : List (α × β)) (k : α) (v : β)
    (h : l.any (fun kv => kv.1 = k) = false) :
    alookup (l ++ [(k, v)]) k = some v := by
  induction l with
  | nil => simp [alookup]
  | cons a r ih =>
      have ha : ¬ a.1 = k := by
        intro hh
        simp [hh] at h
      have hr : r.any (fun kv => kv.1 = k) = false := by
        simpa [ha] using h
      simpa [alookup, ha] using ih hr

theorem alookup_ainsert_self {α β : Type} [DecidableEq α]
    (l : List (α × β)) (k : α) (v : β) :
    alookup (ainsert l k v) k = some v := by
  unfold ainsert
  by_cases h : l.any (fun kv => kv.1 = k) = true
  · rw [if_pos h]
    exact alookup_map_replace l k v h
  · rw [if_neg h]
    refine alookup_append_single l k v ?_
    cases hb : l.any (fun kv => kv.1 = k)
    · rfl
    · exact absurd hb h

theorem find?_map_update (l : List ModelNode) (i : Nat)
    (f : ModelNode → ModelNode) (hid : ∀ n, (f n).id = n.id) (j : Nat) :
    (l.map (fun n => if n.id = i then f n else n)).find?
        (fun n => n.id = j) =
      (l.find? (fun n => n.id = j)).map
        (fun n => if n.id = i then f n else n) := by
  induction l with
  | nil => rfl
  | cons a r ih =>
      have hida : (if a.id = i then f a else a).id = a.id := by
        split
        · exact hid a
        · rfl
      by_cases hj : a.id = j
      · rw [List.map_cons,
          List.find?_cons_of_pos _ (by simpa [hida] using hj),
          List.find?_cons_of_pos _ (by simpa using hj)]
        rfl
      · rw [List.map_cons,
          List.find?_cons_of_neg _ (by simpa [hida] using hj),
          List.find?_cons_of_neg _ (by simpa using hj)]
        exact ih

theorem getNode_updateNode (g : ModelGraph) (i : Nat)
    (f : ModelNode → ModelNode) (hid : ∀ n, (f n).id = n.id) (j : Nat) :
    getNode (updateNode g i f) j =
      (getNode g j).map (fun n => if n.id = i then f n else n) :=
  find?_map_update g.nodes i f hid j

theorem getNode_id (g : ModelGraph) (i : Nat) (n : ModelNode)
    (h : getNode g i = some n) : n.id = i := by
  have := List.find?_some h
  simpa using this

theorem timeOfId_updateNode (g : ModelGraph) (i : Nat)
    (f : ModelNode → ModelNode) (hid : ∀ n, (f n).id = n.id)
    (ht : ∀ n, getTime (f n) = getTime n) (x : Nat) :
    timeOfId (updateNode g i f) x = timeOfId g x := by
  unfold timeOfId
  rw [getNode_updateNode g i f hid x]
  cases h : getNode g x with
  | none => rfl
  | some n =>
      simp only [Option.map_some']
      show getTime (if n.id = i then f n else n) = getTime n
      split
      · exact ht n
      · rfl

theorem hostOfId_updateNode (g : ModelGraph) (i : Nat)
    (f : ModelNode → ModelNode) (hid : ∀ n, (f n).id = n.id)
    (hh : ∀ n, (f n).host = n.host) (x : Nat) :
    hostOfId (updateNode g i f) x = hostOfId g x := by
  unfold hostOfId
  rw [getNode_updateNode g i f hid x]
  cases h : getNode g x with
  | none => rfl
  | some n =>
      simp only [Option.map_some']
      show (if n.id = i then f n else n).getHost = n.getHost
      unfold ModelNode.getHost
      split
      · exact hh n
      · rfl

theorem timeOfId_addParent (g : ModelGraph) (c p x : Nat) :
    timeOfId (addParent g c p) x = timeOfId g x := by
  simp only [addParent]
  split
  · rfl
  · rw [timeOfId_updateNode, timeOfId_updateNode]
    all_goals intro n
    all_goals rfl

theorem hostOfId_addParent (g : ModelGraph) (c p x : Nat) :
    hostOfId (addParent g c p) x = hostOfId g x := by
  simp only [addParent]
  split
  · rfl
  · rw [hostOfId_updateNode, hostOfId_updateNode]
    all_goals intro n
    all_goals rfl

/-- `currNode.hostToParent[h]`, read through the arena. -/
def lookupParent (g : ModelGraph) (cid : Nat) (h : String) : Option Nat :=
  (getNode g cid).bind (fun n => alookup n.hostToParent h)

theorem getNode_addParent_other (g : ModelGraph) (c p x : Nat)
    (hx1 : x ≠ c) (hx2 : x ≠ p) :
    getNode (addParent g c p) x = getNode g x := by
  simp only [addParent]
  split
  · rfl
  · rw [getNode_updateNode, getNode_updateNode]
    · cases hx : getNode g x with
      | none => rfl
      | some n =>
          have hid := getNode_id g x n hx
          have hxc : ¬ n.id = c := by rw [hid]; exact hx1
          have hxp : ¬ n.id = p := by rw [hid]; exact hx2
          simp only [Option.map_some']
          rw [if_neg hxc, if_neg hxp]
    · intro n; rfl
    · intro n; rfl

theorem getNode_addParent_child_isSome (g : ModelGraph) (c p : Nat)
    (nc : ModelNode) (hnc : getNode g c = some nc) (hcp : c ≠ p) :
    ∃ m, getNode (addParent g c p) c = some m := by
  simp only [addParent]
  split
  · exact ⟨nc, hnc⟩
  · rw [getNode_updateNode, getNode_updateNode]
    · have hid := getNode_id g c nc hnc
      have hncp : ¬ nc.id = p := by rw [hid]; exact hcp
      rw [hnc]
      simp only [Option.map_some']
      rw [if_pos hid]
      rw [if_neg hncp]
      exact ⟨_, rfl⟩
    · intro n; rfl
    · intro n; rfl

theorem lookupParent_addParent_self (g : ModelGraph) (c p : Nat)
    (hcp : c ≠ p) (nc : ModelNode) (hnc : getNode g c = some nc) :
    lookupParent (addParent g c p) c (hostOfId g p) = some p := by
  simp only [addParent, lookupParent]
  split
  · next hcur => exact hcur
  · next hcur =>
      rw [getNode_updateNode, getNode_updateNode]
      · have hid := getNode_id g c nc hnc
        have hncp : ¬ nc.id = p := by rw [hid]; exact hcp
        rw [hnc]
        simp only [Option.map_some']
        rw [if_pos hid]
        rw [if_neg hncp]
        simp only [Option.some_bind]
        exact alookup_ainsert_self _ _ _
      · intro n; rfl
      · intro n; rfl

theorem hostOfId_of_getNode (g : ModelGraph) (x : Nat) (n : ModelNode)
    (hx : getNode g x = some n) : hostOfId g x = n.host := by
  unfold hostOfId
  rw [hx]
  rfl

theorem timeOfId_of_getNode (g : ModelGraph) (x : Nat) (n : ModelNode)
    (hx : getNode g x = some n) : timeOfId g x = getTime n := by
  unfold timeOfId
  rw [hx]
  rfl

theorem keepStep_two_candidates (g : ModelGraph) (currId : Nat) (h : String)
    (ncur n1 n2 : ModelNode)
    (hcur : getNode g currId = some ncur)
    (h1 : getNode g n1.id = some n1)
    (h2 : getNode g n2.id = some n2)
    (hh1 : n1.host = h) (hh2 : n2.host = h)
    (ht : getTime n1 < getTime n2)
    (hne : n1.id ≠ n2.id) (hc1 : currId ≠ n1.id) (hc2 : currId ≠ n2.id)
    (hnone : alookup ncur.hostToParent h = none) :
    lookupParent ([n1, n2].foldl (keepStep currId) g) currId h
      = some n2.id ∧
    lookupParent ([n2, n1].foldl (keepStep currId) g) currId h
      = some n2.id := by
  have hhost1 : hostOfId g n1.id = h := by
    rw [hostOfId_of_getNode g n1.id n1 h1, hh1]
  have hhost2 : hostOfId g n2.id = h := by
    rw [hostOfId_of_getNode g n2.id n2 h2, hh2]
  have hs1 : keepStep currId g n1 = addParent g currId n1.id := by
    simp only [keepStep, ModelNode.getHost, hcur, Option.some_bind, hh1,
      hnone]
  have hs2 : keepStep currId g n2 = addParent g currId n2.id := by
    simp only [keepStep, ModelNode.getHost, hcur, Option.some_bind, hh2,
      hnone]
  constructor
  · show lookupParent (keepStep currId (keepStep currId g n1) n2) currId h
      = some n2.id
    rw [hs1]
    have hlp1 : lookupParent (addParent g currId n1.id) currId h
        = some n1.id := by
      have := lookupParent_addParent_self g currId n1.id hc1 ncur hcur
      rwa [hhost1] at this
    have htm1 : timeOfId (addParent g currId n1.id) n1.id = getTime n1 := by
      rw [timeOfId_addParent, timeOfId_of_getNode g n1.id n1 h1]
    have hstep2 : keepStep currId (addParent g currId n1.id) n2
        = addParent (addParent g currId n1.id) currId n2.id := by
      have hb : ((getNode (addParent g currId n1.id) currId).bind
          (fun c => alookup c.hostToParent h)) = some n1.id := hlp1
      simp only [keepStep, ModelNode.getHost, hh2, hb, htm1]
      rw [if_pos ht]
    rw [hstep2]
    obtain ⟨m, hm⟩ :=
      getNode_addParent_child_isSome g currId n1.id ncur hcur hc1
    have := lookupParent_addParent_self (addParent g currId n1.id) currId
      n2.id hc2 m hm
    rwa [hostOfId_addParent, hhost2] at this
  · show lookupParent (keepStep currId (keepStep currId g n2) n1) currId h
      = some n2.id
    rw [hs2]
    have hlp2 : lookupParent (addParent g currId n2.id) currId h
        = some n2.id := by
      have := lookupParent_addParent_self g currId n2.id hc2 ncur hcur
      rwa [hhost2] at this
    have htm2 : timeOfId (addParent g currId n2.id) n2.id = getTime n2 := by
      rw [timeOfId_addParent, timeOfId_of_getNode g n2.id n2 h2]
    have hstep2 : keepStep currId (addParent g currId n2.id) n1
        = addParent g currId n2.id := by
      have hb : ((getNode (addParent g currId n2.id) currId).bind
          (fun c => alookup c.hostToParent h)) = some n2.id := hlp2
      simp only [keepStep, ModelNode.getHost, hh1, hb, htm2]
      rw [if_neg (lt_asymm ht)]
    rw [hstep2]
    exact hlp2

/-- Every node's per-host parent map has no duplicate host key: at most
one parent per host. -/
def parentKeysNodup (g : ModelGraph) : Prop :=
  ∀ n ∈ g.nodes, (n.hostToParent.map Prod.fst).Nodup

theorem nodup_keys_ainsert {β : Type} (l : List (String × β)) (k : String)
    (v : β) (h : (l.map Prod.fst).Nodup) :
    ((ainsert l k v).map Prod.fst).Nodup := by
  unfold ainsert
  by_cases hany : l.any (fun kv => kv.1 = k) = true
  · rw [if_pos hany]
    have : (l.map (fun kv => if kv.1 = k then (k, v) else kv)).map Prod.fst
        = l.map Prod.fst := by
      rw [List.map_map]
      refine List.map_congr_left ?_
      intro kv _
      by_cases hkv : kv.1 = k
      · simp [hkv]
      · simp [hkv]
    rw [this]
    exact h
  · rw [if_neg hany]
    rw [List.map_append]
    have hnotmem : k ∉ l.map Prod.fst := by
      intro hk
      obtain ⟨kv, hkv, hfst⟩ := List.mem_map.mp hk
      exact hany (List.any_eq_true.mpr ⟨kv, hkv, by simpa using hfst⟩)
    simp [List.nodup_append, h, hnotmem]

theorem parentKeysNodup_updateNode (g : ModelGraph) (i : Nat)
    (f : ModelNode → ModelNode)
    (hf : ∀ n, (n.hostToParent.map Prod.fst).Nodup →
      ((f n).hostToParent.map Prod.fst).Nodup)
    (h : parentKeysNodup g) : parentKeysNodup (updateNode g i f) := by
  intro n hn
  unfold updateNode at hn
  simp only at hn
  obtain ⟨m, hm, rfl⟩ := List.mem_map.mp hn
  split
  · exact hf m (h m hm)
  · exact h m hm

theorem parentKeysNodup_addParent (g : ModelGraph) (c p : Nat)
    (h : parentKeysNodup g) : parentKeysNodup (addParent g c p) := by
  simp only [addParent]
  split
  · exact h
  · refine parentKeysNodup_updateNode _ _ _ (fun n hn => hn) ?_
    refine parentKeysNodup_updateNode _ _ _ ?_ h
    intro n hn
    exact nodup_keys_ainsert _ _ _ hn

theorem parentKeysNodup_keepStep (currId : Nat) (g : ModelGraph)
    (node : ModelNode) (h : parentKeysNodup g) :
    parentKeysNodup (keepStep currId g node) := by
  simp only [keepStep]
  split
  · exact parentKeysNodup_addParent _ _ _ h
  · split
    · exact parentKeysNodup_addParent _ _ _ h
    · exact h

theorem foldl_preserves {σ α : Type} (P : σ → Prop) (step : σ → α → σ)
    (hstep : ∀ s a, P s → P (step s a)) :
    ∀ (l : List α) (s : σ), P s → P (l.foldl step s) := by
  intro l
  induction l with
  | nil => intro s hs; exact hs
  | cons a r ih => intro s hs; exact ih _ (hstep s a hs)

theorem foldlM_preserves {ε σ α : Type} (P : σ → Prop)
    (step : σ → α → Except ε σ)
    (hstep : ∀ s a s', P s → step s a = .ok s' → P s') :
    ∀ (l : List α) (s s' : σ), P s → l.foldlM step s = .ok s' → P s' := by
  intro l
  induction l with
  | nil =>
      intro s s' hs h
      simp only [List.foldlM] at h
      cases h
      exact hs
  | cons a r ih =>
      intro s s' hs h
      simp only [List.foldlM] at h
      cases hstep1 : step s a with
      | error e => rw [hstep1] at h; cases h
      | ok s1 =>
          rw [hstep1] at h
          exact ih s1 s' (hstep s a s1 hs hstep1) h

theorem parentKeysNodup_processNode
    (hostInfo : String → Option (Int × List ModelNode)) (host : String)
    (st st' : ModelGraph × List (String × Int)) (curr : ModelNode)
    (h : processNode hostInfo host st curr = .ok st')
    (hp : parentKeysNodup st.1) : parentKeysNodup st'.1 := by
  simp only [processNode, bind, Except.bind] at h
  cases hfold : (getVT curr).clock.foldlM (processEntry curr hostInfo)
      (ainsert st.2 host (getVT curr).getOwnTime, []) with
  | error e => rw [hfold] at h; cases h
  | ok p =>
      rw [hfold] at h
      simp only [pure, Except.pure, Except.ok.injEq] at h
      subst h
      exact foldl_preserves parentKeysNodup _
        (fun g kc hg => parentKeysNodup_keepStep curr.id g kc.2 hg) _ _ hp

theorem parentKeysNodup_initHostsStep
    (st : ModelGraph × List (String × List ModelNode)) (e : LogEvent)
    (h : parentKeysNodup st.1) : parentKeysNodup (initHostsStep st e).1 := by
  simp only [initHostsStep]
  cases halb : alookup st.2 e.getHost with
  | some b =>
      intro n hn
      simp only at hn
      rcases List.mem_append.mp hn with hm | hm
      · exact h n hm
      · have hb := List.mem_singleton.mp hm
        subst hb
        simp
  | none =>
      intro n hn
      simp only at hn
      rcases List.mem_append.mp hn with hm | hm
      · exact h n hm
      · simp only [List.mem_cons, List.mem_singleton,
          List.not_mem_nil, or_false] at hm
        rcases hm with hb | hb | hb <;> (subst hb; simp)

theorem parentKeysNodup_initHosts (evts : List LogEvent) :
    parentKeysNodup (initHosts evts).1 := by
  unfold initHosts
  refine foldl_preserves (fun st => parentKeysNodup st.1) _
    (fun s a hs => parentKeysNodup_initHostsStep s a hs) evts
    (emptyModelGraph, []) ?_
  intro n hn
  exact absurd hn (List.not_mem_nil n)

theorem parentKeysNodup_insertNext (g : ModelGraph) (lastId newId : Nat)
    (h : parentKeysNodup g) : parentKeysNodup (insertNext g lastId newId) := by
  simp only [insertNext]
  split
  · exact h
  · refine parentKeysNodup_updateNode _ _ _ (fun n hn => hn) ?_
    refine parentKeysNodup_updateNode _ _ _ (fun n hn => hn) ?_
    exact parentKeysNodup_updateNode _ _ _ (fun n hn => hn) h

theorem parentKeysNodup_linkChain (g : ModelGraph) (host : String)
    (sorted : List ModelNode) (h : parentKeysNodup g) :
    parentKeysNodup (linkChain g host sorted) := by
  unfold linkChain
  exact foldl_preserves (fun st => parentKeysNodup st.1)
    (fun st n => (insertNext st.1 st.2 n.id, n.id))
    (fun s a hs => parentKeysNodup_insertNext s.1 s.2 a.id hs) sorted
    (g, (alookup g.hostToHead host).getD 0) h

theorem parentKeysNodup_initPrevNext (g : ModelGraph)
    (buckets : List (String × List ModelNode)) (g' : ModelGraph)
    (sbs : List (String × List ModelNode)) (sts : List (String × Int))
    (h : initPrevNext g buckets = .ok (g', sbs, sts))
    (hp : parentKeysNodup g) : parentKeysNodup g' := by
  unfold initPrevNext at h
  have := foldlM_preserves (fun st => parentKeysNodup st.1) _
    ?_ buckets (g, [], []) (g', sbs, sts) hp h
  · exact this
  · intro s a s' hs hstep
    simp only [bind, Except.bind] at hstep
    cases hc : checkIncrements (sortByTime a.2) with
    | error e => rw [hc] at hstep; cases hstep
    | ok u =>
        rw [hc] at hstep
        simp only [pure, Except.pure, Except.ok.injEq] at hstep
        subst hstep
        exact parentKeysNodup_linkChain s.1 a.1 (sortByTime a.2) hs

theorem parentKeysNodup_initParentChild
    (hostInfo : String → Option (Int × List ModelNode)) (g : ModelGraph)
    (buckets : List (String × List ModelNode)) (g' : ModelGraph)
    (h : initParentChild hostInfo g buckets = .ok g')
    (hp : parentKeysNodup g) : parentKeysNodup g' := by
  unfold initParentChild at h
  refine foldlM_preserves parentKeysNodup _ ?_ buckets g g' hp h
  intro s a s' hs hstep
  simp only [bind, Except.bind] at hstep
  cases hf : a.2.foldlM (processNode hostInfo a.1) (s, []) with
  | error e => rw [hf] at hstep; cases hstep
  | ok p =>
      obtain ⟨g1, c1⟩ := p
      rw [hf] at hstep
      simp only [pure, Except.pure, Except.ok.injEq] at hstep
      subst hstep
      exact foldlM_preserves (fun st => parentKeysNodup st.1) _
        (fun st a' st' hst hok =>
          parentKeysNodup_processNode hostInfo a.1 st st' a' hok hst)
        a.2 (s, []) (g1, c1) hs hf

theorem buildModelGraph_parentKeysNodup (evts : List LogEvent)
    (g : ModelGraph) (h : buildModelGraph evts = .ok g) :
    parentKeysNodup g := by
  unfold buildModelGraph at h
  cases hih : initHosts evts with
  | mk g0 b0 =>
      rw [hih] at h
      simp only [bind, Except.bind] at h
      cases hpn : initPrevNext g0 b0 with
      | error e => rw [hpn] at h; cases h
      | ok t =>
          obtain ⟨g1, sbs, sts⟩ := t
          rw [hpn] at h
          have hp0 : parentKeysNodup g0 := by
            have := parentKeysNodup_initHosts evts
            rw [hih] at this
            exact this
          have hp1 : parentKeysNodup g1 :=
            parentKeysNodup_initPrevNext g0 b0 g1 sbs sts hpn hp0
          exact parentKeysNodup_initParentChild _ g1 sbs g h hp1

/-- C6: (a) in a built causal graph every node's per-host parent map has
at most one entry per host, and (b) in the keep-loop of `initParentChild`,
when two direct candidate parents from the same host are offered for one
node (in either order), the one with the larger local time is the parent
kept. -/
theorem claim_C6_one_parent_per_host :
    (∀ (evts : List LogEvent) (g : ModelGraph),
      buildModelGraph evts = .ok g →
      ∀ n ∈ g.nodes, (n.hostToParent.map Prod.fst).Nodup) ∧
    (∀ (g : ModelGraph) (currId : Nat) (h : String)
        (ncur n1 n2 : ModelNode),
      getNode g currId = some ncur → getNode g n1.id = some n1 →
      getNode g n2.id = some n2 → n1.host = h → n2.host = h →
      getTime n1 < getTime n2 → n1.id ≠ n2.id → currId ≠ n1.id →
      currId ≠ n2.id → alookup ncur.hostToParent h = none →
      lookupParent ([n1, n2].foldl (keepStep currId) g) currId h
        = some n2.id ∧
      lookupParent ([n2, n1].foldl (keepStep currId) g) currId h
        = some n2.id) := by
  constructor
  · exact fun evts g h => buildModelGraph_parentKeysNodup evts g h
  · intro g currId h ncur n1 n2 hcur h1 h2 hh1 hh2 ht hne hc1 hc2 hnone
    exact keepStep_two_candidates g currId h ncur n1 n2 hcur h1 h2 hh1
      hh2 ht hne hc1 hc2 hnone

def exC6Events : List LogEvent :=
  [⟨"a", ⟨[("h1", 1)], "h1"⟩, 1, []⟩,
   ⟨"b", ⟨[("h1", 2), ("h2", 1)], "h1"⟩, 2, []⟩,
   ⟨"c", ⟨[("h2", 1)], "h2"⟩, 3, []⟩,
   ⟨"d", ⟨[("h2", 2), ("h1", 2)], "h2"⟩, 4, []⟩]

def exC6Graph : ModelGraph :=
  ((buildModelGraph exC6Events).toOption).getD emptyModelGraph

def exC6ncur : ModelNode :=
  { id := 0, logEvents := [⟨"e", ⟨[("a", 1)], "a"⟩, 1, []⟩], host := "a" }

def exC6n1 : ModelNode :=
  { id := 1, logEvents := [⟨"f", ⟨[("b", 1)], "b"⟩, 2, []⟩], host := "b" }

def exC6n2 : ModelNode :=
  { id := 2, logEvents := [⟨"g", ⟨[("b", 2)], "b"⟩, 3, []⟩], host := "b" }

def exC6G : ModelGraph :=
  { hosts := ["a", "b"], hostToHead := [], hostToTail := [],
    nodes := [exC6ncur, exC6n1, exC6n2], nextId := 3 }

/-- C6 witness: part (a) applied to a concretely built two-host graph, and
part (b) applied to a node offered two same-host candidates with local
times 1 and 2, in both orders. -/
theorem claim_C6_one_parent_per_host_witness :
    (∀ n ∈ exC6Graph.nodes, (n.hostToParent.map Prod.fst).Nodup) ∧
    lookupParent ([exC6n1, exC6n2].foldl (keepStep 0) exC6G) 0 "b"
      = some 2 ∧
    lookupParent ([exC6n2, exC6n1].foldl (keepStep 0) exC6G) 0 "b"
      = some 2 := by
  refine ⟨claim_C6_one_parent_per_host.1 exC6Events exC6Graph (by decide),
    ?_, ?_⟩
  · exact (claim_C6_one_parent_per_host.2 exC6G 0 "b" exC6ncur exC6n1
      exC6n2 (by decide) (by decide) (by decide) rfl rfl (by decide)
      (by decide) (by decide) (by decide) rfl).1
  · exact (claim_C6_one_parent_per_host.2 exC6G 0 "b" exC6ncur exC6n1
      exC6n2 (by decide) (by decide) (by decide) rfl rfl (by decide)
      (by decide) (by decide) (by decide) rfl).2

theorem alookup_oldToNewList_ge (l : List ModelNode) :
    ∀ (base x v : Nat), alookup (oldToNewList base l) x = some v →
      base ≤ v ∧ v < base + l.length := by
  induction l with
  | nil => intro base x v h; cases h
  | cons a r ih =>
      intro base x v h
      simp only [oldToNewList, alookup] at h
      by_cases ha : a.id = x
      · rw [if_pos ha] at h
        cases h
        simp
      · rw [if_neg ha] at h
        have := ih (base + 1) x v h
        constructor
        · omega
        · simpa [Nat.add_assoc, Nat.add_comm, Nat.add_left_comm] using this.2

theorem oldToNewList_getNode (l : List ModelNode) :
    ∀ (base : Nat) (m : ModelNode), m ∈ l →
      (l.map ModelNode.id).Nodup →
      ∃ (i : Nat) (hi : i < l.length), l.get ⟨i, hi⟩ = m ∧
        alookup (oldToNewList base l) m.id = some (base + i) := by
  induction l with
  | nil => intro base m hm; cases hm
  | cons a r ih =>
      intro base m hm hnodup
      rcases List.mem_cons.mp hm with rfl | hm'
      · refine ⟨0, by simp, rfl, ?_⟩
        simp [oldToNewList, alookup]
      · have hane : ¬ a.id = m.id := by
          intro he
          have : a.id ∈ r.map ModelNode.id :=
            List.mem_map.mpr ⟨m, hm', he.symm⟩
          exact (List.nodup_cons.mp hnodup).1 this
        obtain ⟨i, hi, hget, hlk⟩ :=
          ih (base + 1) m hm' (List.nodup_cons.mp hnodup).2
        refine ⟨i + 1, by simpa using Nat.succ_lt_succ hi, by simpa using hget, ?_⟩
        simp only [oldToNewList, alookup, if_neg hane]
        rw [hlk]
        congr 1
        omega

theorem cloneNodesInitList_find? (l : List ModelNode) :
    ∀ (base i : Nat) (hi : i < l.length),
      (cloneNodesInitList base l).find? (fun x => x.id = base + i) =
        some { id := base + i, logEvents := (l.get ⟨i, hi⟩).logEvents,
               host := (l.get ⟨i, hi⟩).host,
               isHeadInner := (l.get ⟨i, hi⟩).isHeadInner,
               isTailInner := (l.get ⟨i, hi⟩).isTailInner } := by
  induction l with
  | nil => intro base i hi; exact absurd hi (by simp)
  | cons a r ih =>
      intro base i hi
      cases i with
      | zero =>
          simp only [cloneNodesInitList]
          rw [List.find?_cons_of_pos _ (by simp)]
          rfl
      | succ j =>
          have hj : j < r.length := Nat.lt_of_succ_lt_succ hi
          simp only [cloneNodesInitList]
          rw [List.find?_cons_of_neg _ (by simp)]
          have := ih (base + 1) j hj
          rw [show base + (j + 1) = base + 1 + j by omega]
          rw [this]
          rfl

theorem ids_cloneNodesInitList (l : List ModelNode) :
    ∀ (base : Nat) (x : Nat),
      x ∈ (cloneNodesInitList base l).map ModelNode.id → base ≤ x := by
  induction l with
  | nil => intro base x h; cases h
  | cons a r ih =>
      intro base x h
      simp only [cloneNodesInitList, List.map_cons, List.mem_cons] at h
      rcases h with rfl | h
      · exact Nat.le_refl x
      · have := ih (base + 1) x h
        omega

theorem length_cloneNodesInitList (l : List ModelNode) :
    ∀ base : Nat, (cloneNodesInitList base l).length = l.length := by
  induction l with
  | nil => intro base; rfl
  | cons a r ih => intro base; simp [cloneNodesInitList, ih]

theorem cloneF_spec (g : ModelGraph)
    (hnodup : (g.nodes.map ModelNode.id).Nodup) (m : ModelNode)
    (hm : m ∈ g.nodes) :
    ∃ (i : Nat) (hi : i < g.nodes.length),
      g.nodes.get ⟨i, hi⟩ = m ∧ cloneF g m.id = g.nextId + i := by
  obtain ⟨i, hi, hget, hlk⟩ :=
    oldToNewList_getNode g.nodes g.nextId m hm hnodup
  refine ⟨i, hi, hget, ?_⟩
  unfold cloneF oldToNew
  rw [hlk]
  rfl

theorem cloneF_ge (g : ModelGraph)
    (hnodup : (g.nodes.map ModelNode.id).Nodup) (m : ModelNode)
    (hm : m ∈ g.nodes) : g.nextId ≤ cloneF g m.id := by
  obtain ⟨i, hi, _, hf⟩ := cloneF_spec g hnodup m hm
  omega

theorem cloneF_inj (g : ModelGraph)
    (hnodup : (g.nodes.map ModelNode.id).Nodup) (m1 m2 : ModelNode)
    (hm1 : m1 ∈ g.nodes) (hm2 : m2 ∈ g.nodes) (hne : m1.id ≠ m2.id) :
    cloneF g m1.id ≠ cloneF g m2.id := by
  obtain ⟨i1, hi1, hg1, hf1⟩ := cloneF_spec g hnodup m1 hm1
  obtain ⟨i2, hi2, hg2, hf2⟩ := cloneF_spec g hnodup m2 hm2
  rw [hf1, hf2]
  intro he
  have : i1 = i2 := by omega
  subst this
  rw [← hg1, ← hg2] at hne
  exact hne rfl

theorem getNode_cloneStart (g : ModelGraph)
    (hnodup : (g.nodes.map ModelNode.id).Nodup) (m : ModelNode)
    (hm : m ∈ g.nodes) :
    getNode (cloneStart g) (cloneF g m.id) =
      some { id := cloneF g m.id, logEvents := m.logEvents, host := m.host,
             isHeadInner := m.isHeadInner, isTailInner := m.isTailInner } := by
  obtain ⟨i, hi, hget, hf⟩ := cloneF_spec g hnodup m hm
  show (cloneNodesInitList g.nextId g.nodes).find?
      (fun x => x.id = cloneF g m.id) = _
  rw [hf]
  rw [cloneNodesInitList_find? g.nodes g.nextId i hi]
  rw [hget]

/-- The graph-level fields `clone`'s second pass never touches. -/
def MetaEq (a b : ModelGraph) : Prop :=
  a.hosts = b.hosts ∧ a.hostToHead = b.hostToHead ∧
  a.hostToTail = b.hostToTail ∧ a.nextId = b.nextId

theorem metaEq_addParent (g : ModelGraph) (c p : Nat) :
    MetaEq (addParent g c p) g := by
  simp only [addParent]
  split
  · exact ⟨rfl, rfl, rfl, rfl⟩
  · exact ⟨rfl, rfl, rfl, rfl⟩

theorem metaEq_trans {a b c : ModelGraph} (h1 : MetaEq a b)
    (h2 : MetaEq b c) : MetaEq a c :=
  ⟨h1.1.trans h2.1, h1.2.1.trans h2.2.1, h1.2.2.1.trans h2.2.2.1,
    h1.2.2.2.trans h2.2.2.2⟩

theorem metaEq_foldl_addChild (g0 : ModelGraph) (pid : Nat)
    (cs : List Nat) :
    ∀ b : ModelGraph,
      MetaEq (cs.foldl (fun b c => addChild b pid (cloneF g0 c)) b) b := by
  induction cs with
  | nil => intro b; exact ⟨rfl, rfl, rfl, rfl⟩
  | cons c r ih =>
      intro b
      exact metaEq_trans (ih (addChild b pid (cloneF g0 c)))
        (metaEq_addParent b (cloneF g0 c) pid)

theorem metaEq_cloneEdgesStep (g0 : ModelGraph) (acc : ModelGraph)
    (n : ModelNode) : MetaEq (cloneEdgesStep g0 acc n) acc := by
  simp only [cloneEdgesStep]
  cases n.prev with
  | none =>
      cases n.next with
      | none => exact metaEq_foldl_addChild g0 _ _ acc
      | some q =>
          exact metaEq_trans (metaEq_foldl_addChild g0 _ _ _)
            ⟨rfl, rfl, rfl, rfl⟩
  | some p =>
      cases n.next with
      | none =>
          exact metaEq_trans (metaEq_foldl_addChild g0 _ _ _)
            ⟨rfl, rfl, rfl, rfl⟩
      | some q =>
          exact metaEq_trans (metaEq_foldl_addChild g0 _ _ _)
            ⟨rfl, rfl, rfl, rfl⟩

theorem ids_updateNode (g : ModelGraph) (i : Nat)
    (f : ModelNode → ModelNode) (hid : ∀ n, (f n).id = n.id) :
    (updateNode g i f).nodes.map ModelNode.id =
      g.nodes.map ModelNode.id := by
  unfold updateNode
  simp only
  rw [List.map_map]
  refine List.map_congr_left ?_
  intro n _
  show (if n.id = i then f n else n).id = n.id
  split
  · exact hid n
  · rfl

theorem ids_addParent (g : ModelGraph) (c p : Nat) :
    (addParent g c p).nodes.map ModelNode.id =
      g.nodes.map ModelNode.id := by
  simp only [addParent]
  split
  · rfl
  · rw [ids_updateNode, ids_updateNode]
    all_goals intro n
    all_goals rfl

theorem ids_foldl_addChild (g0 : ModelGraph) (pid : Nat) (cs : List Nat) :
    ∀ b : ModelGraph,
      (cs.foldl (fun b c => addChild b pid (cloneF g0 c)) b).nodes.map
        ModelNode.id = b.nodes.map ModelNode.id := by
  induction cs with
  | nil => intro b; rfl
  | cons c r ih =>
      intro b
      rw [List.foldl_cons, ih (addChild b pid (cloneF g0 c))]
      exact ids_addParent b (cloneF g0 c) pid

theorem ids_cloneEdgesStep (g0 : ModelGraph) (acc : ModelGraph)
    (n : ModelNode) :
    (cloneEdgesStep g0 acc n).nodes.map ModelNode.id =
      acc.nodes.map ModelNode.id := by
  simp only [cloneEdgesStep]
  cases n.prev <;> cases n.next <;>
    simp [ids_foldl_addChild, ids_updateNode]

theorem alookup_mem {α β : Type} [DecidableEq α] (l : List (α × β))
    (k : α) (v : β) (h : alookup l k = some v) : (k, v) ∈ l := by
  induction l with
  | nil => cases h
  | cons a r ih =>
      simp only [alookup] at h
      by_cases ha : a.1 = k
      · rw [if_pos ha] at h
        cases h
        have he : (k, a.2) = a := by
          rw [← ha]
        rw [he]
        exact List.mem_cons_self a r
      · rw [if_neg ha] at h
        exact List.mem_cons_of_mem _ (ih h)

theorem mem_ainsert {α β : Type} [DecidableEq α] (l : List (α × β))
    (k : α) (v : β) (kv : α × β) (h : kv ∈ ainsert l k v) :
    kv = (k, v) ∨ kv ∈ l := by
  unfold ainsert at h
  split at h
  · obtain ⟨a, ha, hkv⟩ := List.mem_map.mp h
    by_cases hak : a.1 = k
    · rw [if_pos hak] at hkv
      exact Or.inl hkv.symm
    · rw [if_neg hak] at hkv
      exact Or.inr (hkv ▸ ha)
  · rcases List.mem_append.mp h with hm | hm
    · exact Or.inr hm
    · exact Or.inl (List.mem_singleton.mp hm)

theorem alookup_oldToNewList_key (l : List ModelNode) :
    ∀ (base x v : Nat), alookup (oldToNewList base l) x = some v →
      ∃ m ∈ l, m.id = x := by
  induction l with
  | nil => intro base x v h; cases h
  | cons a r ih =>
      intro base x v h
      simp only [oldToNewList, alookup] at h
      by_cases ha : a.id = x
      · exact ⟨a, List.mem_cons_self a r, ha⟩
      · rw [if_neg ha] at h
        obtain ⟨m, hm, hid⟩ := ih (base + 1) x v h
        exact ⟨m, List.mem_cons_of_mem _ hm, hid⟩

theorem getNode_mem (g : ModelGraph) (x : Nat) (n : ModelNode)
    (h : getNode g x = some n) : n ∈ g.nodes :=
  List.mem_of_find?_eq_some h

/-- The well-formedness a graph produced by the builder enjoys, needed for
the clone correspondence: distinct node ids all below the id counter, and
duplicate-free child lists with no self-children. -/
def CloneWF (g : ModelGraph) : Prop :=
  (g.nodes.map ModelNode.id).Nodup ∧
  (∀ n ∈ g.nodes, n.id < g.nextId) ∧
  (∀ n ∈ g.nodes, n.children.Nodup ∧ n.id ∉ n.children)

instance (g : ModelGraph) : Decidable (CloneWF g) := by
  unfold CloneWF
  infer_instance

/-- The shape of every node of the clone: the old node's metadata behind a
fresh id, with edge fields filled in by the second pass. -/
def cloneMeta (g0 : ModelGraph) (n : ModelNode) (pv nx : Option Nat)
    (cs : List Nat) (hp : List (String × Nat)) : ModelNode :=
  { id := cloneF g0 n.id, logEvents := n.logEvents, host := n.host,
    isHeadInner := n.isHeadInner, isTailInner := n.isTailInner,
    prev := pv, next := nx, children := cs, hostToParent := hp }

/-- Invariant of `clone`'s second pass after the nodes in `done` have been
processed. -/
def CloneInv (g0 : ModelGraph) (done : List ModelNode)
    (acc : ModelGraph) : Prop :=
  acc.nodes.map ModelNode.id = (cloneStart g0).nodes.map ModelNode.id ∧
  ∀ n ∈ g0.nodes, ∃ pv nx cs hp,
    getNode acc (cloneF g0 n.id) = some (cloneMeta g0 n pv nx cs hp) ∧
    (n ∈ done → pv = n.prev.map (cloneF g0) ∧
      nx = n.next.map (cloneF g0) ∧ cs = n.children.map (cloneF g0)) ∧
    (n ∉ done → pv = none ∧ nx = none ∧ cs = []) ∧
    (∀ kv ∈ hp, ∃ m ∈ done, kv.2 = cloneF g0 m.id)

/-- Invariant inside the `addChild` loop for the node `n`, after the child
ids in `csdone` have been re-added. -/
def CloneInnerInv (g0 : ModelGraph) (done : List ModelNode) (n : ModelNode)
    (csdone : List Nat) (b : ModelGraph) : Prop :=
  b.nodes.map ModelNode.id = (cloneStart g0).nodes.map ModelNode.id ∧
  ∀ m ∈ g0.nodes, ∃ pv nx cs hp,
    getNode b (cloneF g0 m.id) = some (cloneMeta g0 m pv nx cs hp) ∧
    (m = n → pv = n.prev.map (cloneF g0) ∧
      nx = n.next.map (cloneF g0) ∧ cs = csdone.map (cloneF g0)) ∧
    (m ≠ n → m ∈ done → pv = m.prev.map (cloneF g0) ∧
      nx = m.next.map (cloneF g0) ∧ cs = m.children.map (cloneF g0)) ∧
    (m ≠ n → m ∉ done → pv = none ∧ nx = none ∧ cs = []) ∧
    (∀ kv ∈ hp, (∃ m' ∈ done, kv.2 = cloneF g0 m'.id) ∨
      (kv.2 = cloneF g0 n.id ∧ m.id ∈ csdone))

theorem cloneF_ne_of_ne (g0 : ModelGraph)
    (hnodup : (g0.nodes.map ModelNode.id).Nodup) {m1 m2 : ModelNode}
    (hm1 : m1 ∈ g0.nodes) (hm2 : m2 ∈ g0.nodes) (hne : m1 ≠ m2) :
    cloneF g0 m1.id ≠ cloneF g0 m2.id := by
  refine cloneF_inj g0 hnodup m1 m2 hm1 hm2 ?_
  intro he
  exact hne (List.inj_on_of_nodup_map hnodup hm1 hm2 he)

theorem eq_of_id_eq (g0 : ModelGraph)
    (hnodup : (g0.nodes.map ModelNode.id).Nodup) {m1 m2 : ModelNode}
    (hm1 : m1 ∈ g0.nodes) (hm2 : m2 ∈ g0.nodes) (hid : m1.id = m2.id) :
    m1 = m2 :=
  List.inj_on_of_nodup_map hnodup hm1 hm2 hid

/-- The child-side update of `addParent`: record the parent under its
host. -/
def setParentEntry (ph : String) (pid : Nat) (x : ModelNode) : ModelNode :=
  { x with hostToParent := ainsert x.hostToParent ph pid }

/-- The parent-side update of `addParent`: record the child. -/
def appendChild (cid : Nat) (x : ModelNode) : ModelNode :=
  { x with children := x.children ++ [cid] }

theorem addParent_eq (g : ModelGraph) (childId parentId : Nat)
    (hcur : ((getNode g childId).bind
      (fun x => alookup x.hostToParent (hostOfId g parentId)))
        ≠ some parentId) :
    addParent g childId parentId =
      updateNode
        (updateNode g childId
          (setParentEntry (hostOfId g parentId) parentId))
        parentId (appendChild childId) := by
  simp only [addParent, setParentEntry, appendChild]
  rw [if_neg hcur]
  rfl

theorem getNode_update_setParent (g : ModelGraph) (i : Nat) (ph : String)
    (pid : Nat) (j : Nat) :
    getNode (updateNode g i (setParentEntry ph pid)) j =
      (getNode g j).map
        (fun x => if x.id = i then setParentEntry ph pid x else x) :=
  getNode_updateNode g i (setParentEntry ph pid) (fun x => rfl) j

theorem getNode_update_appendChild (g : ModelGraph) (i : Nat) (cid : Nat)
    (j : Nat) :
    getNode (updateNode g i (appendChild cid)) j =
      (getNode g j).map
        (fun x => if x.id = i then appendChild cid x else x) :=
  getNode_updateNode g i (appendChild cid) (fun x => rfl) j

theorem cloneMeta_id (g0 : ModelGraph) (n : ModelNode) (pv nx : Option Nat)
    (cs : List Nat) (hp : List (String × Nat)) :
    (cloneMeta g0 n pv nx cs hp).id = cloneF g0 n.id := rfl

theorem setParentEntry_cloneMeta (g0 : ModelGraph) (n : ModelNode)
    (pv nx : Option Nat) (cs : List Nat) (hp : List (String × Nat))
    (ph : String) (pid : Nat) :
    setParentEntry ph pid (cloneMeta g0 n pv nx cs hp) =
      cloneMeta g0 n pv nx cs (ainsert hp ph pid) := rfl

theorem appendChild_cloneMeta (g0 : ModelGraph) (n : ModelNode)
    (pv nx : Option Nat) (cs : List Nat) (hp : List (String × Nat))
    (cid : Nat) :
    appendChild cid (cloneMeta g0 n pv nx cs hp) =
      cloneMeta g0 n pv nx (cs ++ [cid]) hp := rfl

theorem cloneAddChild_step (g0 : ModelGraph) (hwf : CloneWF g0)
    (done : List ModelNode) (hsub : ∀ x ∈ done, x ∈ g0.nodes)
    (n : ModelNode) (hn : n ∈ g0.nodes)
    (hnd : n ∉ done) (csdone : List Nat) (c : Nat)
    (hcnd : c ∉ csdone) (hcc : c ∈ n.children) (b : ModelGraph)
    (hinv : CloneInnerInv g0 done n csdone b) :
    CloneInnerInv g0 done n (csdone ++ [c])
      (addChild b (cloneF g0 n.id) (cloneF g0 c)) := by
  obtain ⟨hwf1, hwf2, hwf3⟩ := hwf
  obtain ⟨hids, hnodes⟩ := hinv
  have hbase : 1 ≤ g0.nextId := by
    have := hwf2 n hn
    omega
  obtain ⟨pvn, nxn, csn, hpn, hgn, hn1, hn2, hn3, hhpn⟩ := hnodes n hn
  have hcsn : pvn = n.prev.map (cloneF g0) ∧
      nxn = n.next.map (cloneF g0) ∧ csn = csdone.map (cloneF g0) :=
    hn1 rfl
  have hhost : hostOfId b (cloneF g0 n.id) = n.host :=
    hostOfId_of_getNode b (cloneF g0 n.id)
      (cloneMeta g0 n pvn nxn csn hpn) hgn
  have hcn : c ≠ n.id := by
    intro he
    exact (hwf3 n hn).2 (he ▸ hcc)
  by_cases hkey : ∃ m, m ∈ g0.nodes ∧ m.id = c
  · -- the child id belongs to an arena node m
    obtain ⟨m, hm, hmc⟩ := hkey
    subst hmc
    have hmn : m ≠ n := by
      intro he
      exact hcn (by rw [he])
    obtain ⟨pvm, nxm, csm, hpm, hgm, hm1, hm2, hm3, hhpm⟩ := hnodes m hm
    have hcur : ((getNode b (cloneF g0 m.id)).bind
        (fun x => alookup x.hostToParent
          (hostOfId b (cloneF g0 n.id)))) ≠ some (cloneF g0 n.id) := by
      rw [hgm, Option.some_bind]
      intro hsome
      have hmem := alookup_mem _ _ _ hsome
      rcases hhpm _ hmem with ⟨m', hm', hv⟩ | ⟨hv, hmem2⟩
      · by_cases hne : n.id = m'.id
        · have he : n = m' := eq_of_id_eq g0 hwf1 hn (hsub m' hm') hne
          exact hnd (he ▸ hm')
        · exact cloneF_inj g0 hwf1 n m' hn (hsub m' hm') hne hv
      · exact hcnd hmem2
    have hfcfn : cloneF g0 m.id ≠ cloneF g0 n.id :=
      cloneF_ne_of_ne g0 hwf1 hm hn hmn
    have hstep := addParent_eq b (cloneF g0 m.id) (cloneF g0 n.id) hcur
    constructor
    · show (addParent b (cloneF g0 m.id) (cloneF g0 n.id)).nodes.map
        ModelNode.id = _
      rw [hstep]
      rw [ids_updateNode, ids_updateNode]
      · exact hids
      · intro x; rfl
      · intro x; rfl
    · intro m' hm'
      obtain ⟨pv', nx', cs', hp', hget', h1', h2', h3', hhp'⟩ :=
        hnodes m' hm'
      show ∃ pv nx cs hp,
        getNode (addParent b (cloneF g0 m.id) (cloneF g0 n.id))
          (cloneF g0 m'.id) = some (cloneMeta g0 m' pv nx cs hp) ∧ _
      rw [hstep]
      by_cases hmm : m' = m
      · -- the child's own node gains a hostToParent entry
        subst hmm
        refine ⟨pv', nx', cs',
          ainsert hp' (hostOfId b (cloneF g0 n.id)) (cloneF g0 n.id),
          ?_, ?_, ?_, ?_, ?_⟩
        · rw [getNode_update_appendChild, getNode_update_setParent, hget']
          simp only [Option.map_some']
          rw [cloneMeta_id]
          rw [if_pos rfl, setParentEntry_cloneMeta]
          rw [cloneMeta_id]
          rw [if_neg hfcfn]
        · intro he; exact absurd he hmn
        · intro _ hdone; exact h2' hmn hdone
        · intro _ hndone; exact h3' hmn hndone
        · intro kv hkv
          rcases mem_ainsert _ _ _ _ hkv with rfl | hkv'
          · exact Or.inr ⟨rfl, by simp⟩
          · rcases hhp' kv hkv' with ⟨m2, hm2m, hv2⟩ | ⟨hv2, hmem2⟩
            · exact Or.inl ⟨m2, hm2m, hv2⟩
            · exact Or.inr ⟨hv2, by simp [hmem2]⟩
      · by_cases hmn' : m' = n
        · -- the parent node n gains the child edge
          subst hmn'
          refine ⟨pvn, nxn, csn ++ [cloneF g0 m.id], hpn, ?_, ?_, ?_, ?_,
            ?_⟩
          · rw [getNode_update_appendChild, getNode_update_setParent, hgn]
            simp only [Option.map_some']
            rw [cloneMeta_id]
            rw [if_neg (Ne.symm hfcfn)]
            rw [cloneMeta_id]
            rw [if_pos rfl, appendChild_cloneMeta]
          · intro _
            refine ⟨hcsn.1, hcsn.2.1, ?_⟩
            rw [hcsn.2.2, List.map_append]
            rfl
          · intro he; exact absurd rfl he
          · intro he; exact absurd rfl he
          · intro kv hkv
            rcases hhpn kv hkv with ⟨m2, hm2m, hv2⟩ | ⟨hv2, hmem2⟩
            · exact Or.inl ⟨m2, hm2m, hv2⟩
            · exact Or.inr ⟨hv2, by simp [hmem2]⟩
        · -- untouched node
          refine ⟨pv', nx', cs', hp', ?_, ?_, ?_, ?_, ?_⟩
          · rw [getNode_update_appendChild, getNode_update_setParent,
              hget']
            simp only [Option.map_some']
            rw [cloneMeta_id]
            rw [if_neg (cloneF_ne_of_ne g0 hwf1 hm' hm hmm)]
            rw [cloneMeta_id]
            rw [if_neg (cloneF_ne_of_ne g0 hwf1 hm' hn hmn')]
          · intro he; exact absurd he hmn'
          · intro _ hdone; exact h2' hmn' hdone
          · intro _ hndone; exact h3' hmn' hndone
          · intro kv hkv
            rcases hhp' kv hkv with ⟨m2, hm2m, hv2⟩ | ⟨hv2, hmem2⟩
            · exact Or.inl ⟨m2, hm2m, hv2⟩
            · exact Or.inr ⟨hv2, by simp [hmem2]⟩
  · -- dangling child id: the old-to-new index falls back to 0
    have hlknone : alookup (oldToNew g0) c = none := by
      cases hlk : alookup (oldToNew g0) c with
      | none => rfl
      | some v =>
          obtain ⟨m, hm, hid⟩ :=
            alookup_oldToNewList_key g0.nodes g0.nextId c v hlk
          exact absurd ⟨m, hm, hid⟩ hkey
    have hfc0 : cloneF g0 c = 0 := by
      unfold cloneF
      rw [hlknone]
      rfl
    have hget0 : getNode b 0 = none := by
      cases hg : getNode b 0 with
      | none => rfl
      | some x =>
          have hxid : x.id = 0 := getNode_id b 0 x hg
          have hxmem : x ∈ b.nodes := getNode_mem b 0 x hg
          have hxids : x.id ∈ b.nodes.map ModelNode.id :=
            List.mem_map_of_mem _ hxmem
          rw [hids] at hxids
          have hge := ids_cloneNodesInitList g0.nodes g0.nextId x.id hxids
          omega
    have hcur : ((getNode b (cloneF g0 c)).bind
        (fun x => alookup x.hostToParent
          (hostOfId b (cloneF g0 n.id)))) ≠ some (cloneF g0 n.id) := by
      rw [hfc0, hget0]
      simp
    have hstep := addParent_eq b (cloneF g0 c) (cloneF g0 n.id) hcur
    constructor
    · show (addParent b (cloneF g0 c) (cloneF g0 n.id)).nodes.map
        ModelNode.id = _
      rw [hstep]
      rw [ids_updateNode, ids_updateNode]
      · exact hids
      · intro x; rfl
      · intro x; rfl
    · intro m' hm'
      obtain ⟨pv', nx', cs', hp', hget', h1', h2', h3', hhp'⟩ :=
        hnodes m' hm'
      have hy0 : cloneF g0 m'.id ≠ cloneF g0 c := by
        rw [hfc0]
        have := cloneF_ge g0 hwf1 m' hm'
        omega
      show ∃ pv nx cs hp,
        getNode (addParent b (cloneF g0 c) (cloneF g0 n.id))
          (cloneF g0 m'.id) = some (cloneMeta g0 m' pv nx cs hp) ∧ _
      rw [hstep]
      by_cases hmn' : m' = n
      · subst hmn'
        refine ⟨pvn, nxn, csn ++ [cloneF g0 c], hpn, ?_, ?_, ?_, ?_, ?_⟩
        · rw [getNode_update_appendChild, getNode_update_setParent, hgn]
          simp only [Option.map_some']
          rw [cloneMeta_id]
          rw [if_neg hy0]
          rw [cloneMeta_id]
          rw [if_pos rfl, appendChild_cloneMeta]
        · intro _
          refine ⟨hcsn.1, hcsn.2.1, ?_⟩
          rw [hcsn.2.2, List.map_append]
          rfl
        · intro he; exact absurd rfl he
        · intro he; exact absurd rfl he
        · intro kv hkv
          rcases hhpn kv hkv with ⟨m2, hm2m, hv2⟩ | ⟨hv2, hmem2⟩
          · exact Or.inl ⟨m2, hm2m, hv2⟩
          · exact Or.inr ⟨hv2, by simp [hmem2]⟩
      · refine ⟨pv', nx', cs', hp', ?_, ?_, ?_, ?_, ?_⟩
        · rw [getNode_update_appendChild, getNode_update_setParent, hget']
          simp only [Option.map_some']
          rw [cloneMeta_id]
          rw [if_neg hy0]
          rw [cloneMeta_id]
          rw [if_neg (cloneF_ne_of_ne g0 hwf1 hm' hn hmn')]
        · intro he; exact absurd he hmn'
        · intro _ hdone; exact h2' hmn' hdone
        · intro _ hndone; exact h3' hmn' hndone
        · intro kv hkv
          rcases hhp' kv hkv with ⟨m2, hm2m, hv2⟩ | ⟨hv2, hmem2⟩
          · exact Or.inl ⟨m2, hm2m, hv2⟩
          · exact Or.inr ⟨hv2, by simp [hmem2]⟩

theorem cloneChildrenFold (g0 : ModelGraph) (hwf : CloneWF g0)
    (done : List ModelNode) (hsub : ∀ x ∈ done, x ∈ g0.nodes)
    (n : ModelNode) (hn : n ∈ g0.nodes) (hnd : n ∉ done) :
    ∀ (cstodo csdone : List Nat) (b : ModelGraph),
      csdone ++ cstodo = n.children →
      CloneInnerInv g0 done n csdone b →
      CloneInnerInv g0 done n (csdone ++ cstodo)
        (cstodo.foldl
          (fun b c => addChild b (cloneF g0 n.id) (cloneF g0 c)) b) := by
  intro cstodo
  induction cstodo with
  | nil =>
      intro csdone b _ hinv
      simpa using hinv
  | cons c rest ih =>
      intro csdone b happ hinv
      have hnodup : (csdone ++ c :: rest).Nodup := by
        rw [happ]
        exact (hwf.2.2 n hn).1
      have hcnd : c ∉ csdone := by
        intro hc
        have hdisj := List.disjoint_of_nodup_append hnodup
        exact hdisj hc (List.mem_cons_self c rest)
      have hcc : c ∈ n.children := by
        rw [← happ]
        exact List.mem_append_right _ (List.mem_cons_self c rest)
      rw [List.foldl_cons]
      have hstep := cloneAddChild_step g0 hwf done hsub n hn hnd csdone c
        hcnd hcc b hinv
      have happ' : (csdone ++ [c]) ++ rest = n.children := by
        rw [← happ]
        simp
      have := ih (csdone ++ [c])
        (addChild b (cloneF g0 n.id) (cloneF g0 c)) happ' hstep
      simpa using this

/-- The `prev` guard of `clone`'s second pass. -/
def setPrevF (v : Nat) (x : ModelNode) : ModelNode :=
  { x with prev := some v }

/-- The `next` guard of `clone`'s second pass. -/
def setNextF (v : Nat) (x : ModelNode) : ModelNode :=
  { x with next := some v }

def clonePrevUpd (g0 : ModelGraph) (n : ModelNode) (acc : ModelGraph) :
    ModelGraph :=
  match n.prev with
  | none => acc
  | some p => updateNode acc (cloneF g0 n.id) (setPrevF (cloneF g0 p))

def cloneNextUpd (g0 : ModelGraph) (n : ModelNode) (acc : ModelGraph) :
    ModelGraph :=
  match n.next with
  | none => acc
  | some q => updateNode acc (cloneF g0 n.id) (setNextF (cloneF g0 q))

theorem cloneEdgesStep_eq (g0 : ModelGraph) (acc : ModelGraph)
    (n : ModelNode) :
    cloneEdgesStep g0 acc n =
      n.children.foldl
        (fun b c => addChild b (cloneF g0 n.id) (cloneF g0 c))
        (cloneNextUpd g0 n (clonePrevUpd g0 n acc)) := by
  simp only [cloneEdgesStep, clonePrevUpd, cloneNextUpd, setPrevF,
    setNextF]
  cases n.prev <;> cases n.next <;> rfl

theorem getNode_update_setPrev (g : ModelGraph) (i v j : Nat) :
    getNode (updateNode g i (setPrevF v)) j =
      (getNode g j).map (fun x => if x.id = i then setPrevF v x else x) :=
  getNode_updateNode g i (setPrevF v) (fun x => rfl) j

theorem getNode_update_setNext (g : ModelGraph) (i v j : Nat) :
    getNode (updateNode g i (setNextF v)) j =
      (getNode g j).map (fun x => if x.id = i then setNextF v x else x) :=
  getNode_updateNode g i (setNextF v) (fun x => rfl) j

theorem setPrevF_cloneMeta (g0 : ModelGraph) (n : ModelNode)
    (pv nx : Option Nat) (cs : List Nat) (hp : List (String × Nat))
    (v : Nat) :
    setPrevF v (cloneMeta g0 n pv nx cs hp) =
      cloneMeta g0 n (some v) nx cs hp := rfl

theorem setNextF_cloneMeta (g0 : ModelGraph) (n : ModelNode)
    (pv nx : Option Nat) (cs : List Nat) (hp : List (String × Nat))
    (v : Nat) :
    setNextF v (cloneMeta g0 n pv nx cs hp) =
      cloneMeta g0 n pv (some v) cs hp := rfl

theorem ids_clonePrevUpd (g0 : ModelGraph) (n : ModelNode)
    (acc : ModelGraph) :
    (clonePrevUpd g0 n acc).nodes.map ModelNode.id =
      acc.nodes.map ModelNode.id := by
  unfold clonePrevUpd
  cases n.prev with
  | none => rfl
  | some p =>
      rw [ids_updateNode]
      intro x
      rfl

theorem ids_cloneNextUpd (g0 : ModelGraph) (n : ModelNode)
    (acc : ModelGraph) :
    (cloneNextUpd g0 n acc).nodes.map ModelNode.id =
      acc.nodes.map ModelNode.id := by
  unfold cloneNextUpd
  cases n.next with
  | none => rfl
  | some q =>
      rw [ids_updateNode]
      intro x
      rfl

theorem getNode_clonePrevUpd (g0 : ModelGraph) (n : ModelNode)
    (acc : ModelGraph) (m : ModelNode) (pv nx : Option Nat)
    (cs : List Nat) (hp : List (String × Nat))
    (hget : getNode acc (cloneF g0 m.id) = some (cloneMeta g0 m pv nx cs hp)) :
    (cloneF g0 m.id = cloneF g0 n.id →
      getNode (clonePrevUpd g0 n acc) (cloneF g0 m.id) =
        some (cloneMeta g0 m
          (match n.prev with | none => pv | some p => some (cloneF g0 p))
          nx cs hp)) ∧
    (cloneF g0 m.id ≠ cloneF g0 n.id →
      getNode (clonePrevUpd g0 n acc) (cloneF g0 m.id) =
        some (cloneMeta g0 m pv nx cs hp)) := by
  constructor
  · intro heq
    unfold clonePrevUpd
    cases n.prev with
    | none => exact hget
    | some p =>
        rw [getNode_update_setPrev, hget]
        simp only [Option.map_some']
        rw [cloneMeta_id]
        rw [if_pos heq, setPrevF_cloneMeta]
  · intro hne
    unfold clonePrevUpd
    cases n.prev with
    | none => exact hget
    | some p =>
        rw [getNode_update_setPrev, hget]
        simp only [Option.map_some']
        rw [cloneMeta_id]
        rw [if_neg hne]

theorem getNode_cloneNextUpd (g0 : ModelGraph) (n : ModelNode)
    (acc : ModelGraph) (m : ModelNode) (pv nx : Option Nat)
    (cs : List Nat) (hp : List (String × Nat))
    (hget : getNode acc (cloneF g0 m.id) = some (cloneMeta g0 m pv nx cs hp)) :
    (cloneF g0 m.id = cloneF g0 n.id →
      getNode (cloneNextUpd g0 n acc) (cloneF g0 m.id) =
        some (cloneMeta g0 m pv
          (match n.next with | none => nx | some q => some (cloneF g0 q))
          cs hp)) ∧
    (cloneF g0 m.id ≠ cloneF g0 n.id →
      getNode (cloneNextUpd g0 n acc) (cloneF g0 m.id) =
        some (cloneMeta g0 m pv nx cs hp)) := by
  constructor
  · intro heq
    unfold cloneNextUpd
    cases n.next with
    | none => exact hget
    | some q =>
        rw [getNode_update_setNext, hget]
        simp only [Option.map_some']
        rw [cloneMeta_id]
        rw [if_pos heq, setNextF_cloneMeta]
  · intro hne
    unfold cloneNextUpd
    cases n.next with
    | none => exact hget
    | some q =>
        rw [getNode_update_setNext, hget]
        simp only [Option.map_some']
        rw [cloneMeta_id]
        rw [if_neg hne]

theorem cloneEdgesStep_inv (g0 : ModelGraph) (hwf : CloneWF g0)
    (done : List ModelNode) (hsub : ∀ x ∈ done, x ∈ g0.nodes)
    (n : ModelNode) (hn : n ∈ g0.nodes) (hnd : n ∉ done)
    (acc : ModelGraph) (hinv : CloneInv g0 done acc) :
    CloneInv g0 (done ++ [n]) (cloneEdgesStep g0 acc n) := by
  rw [cloneEdgesStep_eq]
  have hstart : CloneInnerInv g0 done n []
      (cloneNextUpd g0 n (clonePrevUpd g0 n acc)) := by
    obtain ⟨hids, hnodes⟩ := hinv
    constructor
    · rw [ids_cloneNextUpd, ids_clonePrevUpd]
      exact hids
    · intro m hm
      obtain ⟨pv, nx, cs, hp, hget, hdone, hnotdone, hhp⟩ := hnodes m hm
      by_cases hmn : m = n
      · subst hmn
        obtain ⟨hpv0, hnx0, hcs0⟩ := hnotdone hnd
        have h1 := (getNode_clonePrevUpd g0 m acc m pv nx cs hp hget).1 rfl
        have h2 := (getNode_cloneNextUpd g0 m (clonePrevUpd g0 m acc) m _
          nx cs hp h1).1 rfl
        refine ⟨_, _, cs, hp, h2, ?_, ?_, ?_, ?_⟩
        · intro _
          refine ⟨?_, ?_, ?_⟩
          · rw [hpv0]
            cases m.prev <;> rfl
          · rw [hnx0]
            cases m.next <;> rfl
          · rw [hcs0]
            rfl
        · intro hne; exact absurd rfl hne
        · intro hne; exact absurd rfl hne
        · intro kv hkv
          exact Or.inl (hhp kv hkv)
      · have hne := cloneF_ne_of_ne g0 hwf.1 hm hn hmn
        have h1 := (getNode_clonePrevUpd g0 n acc m pv nx cs hp hget).2 hne
        have h2 := (getNode_cloneNextUpd g0 n (clonePrevUpd g0 n acc) m pv
          nx cs hp h1).2 hne
        refine ⟨pv, nx, cs, hp, h2, ?_, ?_, ?_, ?_⟩
        · intro he; exact absurd he hmn
        · intro _ hd; exact hdone hd
        · intro _ hnd2; exact hnotdone hnd2
        · intro kv hkv
          exact Or.inl (hhp kv hkv)
  have hfold := cloneChildrenFold g0 hwf done hsub n hn hnd n.children []
    (cloneNextUpd g0 n (clonePrevUpd g0 n acc)) (by simp) hstart
  obtain ⟨hids2, hnodes2⟩ := hfold
  constructor
  · exact hids2
  · intro m hm
    obtain ⟨pv, nx, cs, hp, hget, h1, h2, h3, hhp⟩ := hnodes2 m hm
    by_cases hmn : m = n
    · subst hmn
      obtain ⟨hpv, hnx, hcs⟩ := h1 rfl
      refine ⟨pv, nx, cs, hp, hget, ?_, ?_, ?_⟩
      · intro _
        refine ⟨hpv, hnx, ?_⟩
        simpa using hcs
      · intro hnotin
        exact absurd (List.mem_append_right _ (List.mem_singleton.mpr rfl))
          hnotin
      · intro kv hkv
        rcases hhp kv hkv with ⟨m2, hm2, hv⟩ | ⟨hv, _⟩
        · exact ⟨m2, List.mem_append_left _ hm2, hv⟩
        · exact ⟨m, List.mem_append_right _ (List.mem_singleton.mpr rfl),
            hv⟩
    · refine ⟨pv, nx, cs, hp, hget, ?_, ?_, ?_⟩
      · intro hin
        rcases List.mem_append.mp hin with hd | hs
        · exact h2 hmn hd
        · exact absurd (List.mem_singleton.mp hs) hmn
      · intro hnotin
        exact h3 hmn (fun hd => hnotin (List.mem_append_left _ hd))
      · intro kv hkv
        rcases hhp kv hkv with ⟨m2, hm2, hv⟩ | ⟨hv, _⟩
        · exact ⟨m2, List.mem_append_left _ hm2, hv⟩
        · exact ⟨n, List.mem_append_right _ (List.mem_singleton.mpr rfl),
            hv⟩

theorem cloneFold_inv (g0 : ModelGraph) (hwf : CloneWF g0) :
    ∀ (todo done : List ModelNode) (acc : ModelGraph),
      done ++ todo = g0.nodes →
      CloneInv g0 done acc →
      CloneInv g0 (done ++ todo) (todo.foldl (cloneEdgesStep g0) acc) := by
  intro todo
  induction todo with
  | nil =>
      intro done acc _ hinv
      simpa using hinv
  | cons n rest ih =>
      intro done acc happ hinv
      have hsub : ∀ x ∈ done, x ∈ g0.nodes := by
        intro x hx
        rw [← happ]
        exact List.mem_append_left _ hx
      have hn : n ∈ g0.nodes := by
        rw [← happ]
        exact List.mem_append_right _ (List.mem_cons_self _ _)
      have hnd : n ∉ done := by
        have hnods : (done ++ n :: rest).Nodup := by
          rw [happ]
          exact hwf.1.of_map
        intro hc
        exact (List.disjoint_of_nodup_append hnods) hc
          (List.mem_cons_self _ _)
      rw [List.foldl_cons]
      have hstep := cloneEdgesStep_inv g0 hwf done hsub n hn hnd acc hinv
      have happ' : (done ++ [n]) ++ rest = g0.nodes := by
        rw [← happ]
        simp
      have := ih (done ++ [n]) (cloneEdgesStep g0 acc n) happ' hstep
      simpa using this

theorem cloneInv_start (g0 : ModelGraph)
    (hwf1 : (g0.nodes.map ModelNode.id).Nodup) :
    CloneInv g0 [] (cloneStart g0) := by
  constructor
  · rfl
  · intro n hn
    refine ⟨none, none, [], [], ?_, ?_, ?_, ?_⟩
    · exact getNode_cloneStart g0 hwf1 n hn
    · intro hin; cases hin
    · intro _; exact ⟨rfl, rfl, rfl⟩
    · intro kv hkv; cases hkv

theorem metaEq_foldl_cloneEdgesStep (g0 : ModelGraph)
    (l : List ModelNode) :
    ∀ acc : ModelGraph,
      MetaEq (l.foldl (cloneEdgesStep g0) acc) acc := by
  induction l with
  | nil => intro acc; exact ⟨rfl, rfl, rfl, rfl⟩
  | cons n rest ih =>
      intro acc
      rw [List.foldl_cons]
      exact metaEq_trans (ih (cloneEdgesStep g0 acc n))
        (metaEq_cloneEdgesStep g0 acc n)

/-- C7: `clone()` of a well-formed graph yields a graph with the same host
list, rebuilt head/tail maps, the same node count, per-node metadata
preserved, and prev/next and child edges connecting exactly the
corresponding nodes under the old-to-new index — while no node id is
shared between the original and the clone. -/
theorem claim_C7_clone_structural (g : ModelGraph) (hwf : CloneWF g) :
    (cloneGraph g).hosts = g.hosts ∧
    (cloneGraph g).hostToHead =
      g.hostToHead.map (fun kv => (kv.1, cloneF g kv.2)) ∧
    (cloneGraph g).hostToTail =
      g.hostToTail.map (fun kv => (kv.1, cloneF g kv.2)) ∧
    (cloneGraph g).nodes.length = g.nodes.length ∧
    (∀ n ∈ g.nodes, ∃ n' ∈ (cloneGraph g).nodes,
      n'.id = cloneF g n.id ∧ n'.logEvents = n.logEvents ∧
      n'.host = n.host ∧ n'.isHeadInner = n.isHeadInner ∧
      n'.isTailInner = n.isTailInner ∧
      n'.prev = n.prev.map (cloneF g) ∧
      n'.next = n.next.map (cloneF g) ∧
      n'.children = n.children.map (cloneF g)) ∧
    (∀ n ∈ g.nodes, ∀ n' ∈ (cloneGraph g).nodes, n.id ≠ n'.id) := by
  have hinv : CloneInv g g.nodes (cloneGraph g) := by
    have h0 := cloneFold_inv g hwf g.nodes [] (cloneStart g) rfl
      (cloneInv_start g hwf.1)
    simpa using h0
  obtain ⟨hids, hnodes⟩ := hinv
  have hmeta : MetaEq (cloneGraph g) (cloneStart g) :=
    metaEq_foldl_cloneEdgesStep g g.nodes (cloneStart g)
  refine ⟨hmeta.1, hmeta.2.1, hmeta.2.2.1, ?_, ?_, ?_⟩
  · have h1 : ((cloneGraph g).nodes.map ModelNode.id).length =
        ((cloneStart g).nodes.map ModelNode.id).length := by
      rw [hids]
    simp only [List.length_map] at h1
    rw [h1]
    exact length_cloneNodesInitList g.nodes g.nextId
  · intro n hn
    obtain ⟨pv, nx, cs, hp, hget, hdone, _, _⟩ := hnodes n hn
    obtain ⟨hpv, hnx, hcs⟩ := hdone hn
    exact ⟨cloneMeta g n pv nx cs hp, getNode_mem _ _ _ hget,
      cloneMeta_id g n pv nx cs hp, rfl, rfl, rfl, rfl, hpv, hnx, hcs⟩
  · intro n hn n' hn'
    have hid' : n'.id ∈ (cloneGraph g).nodes.map ModelNode.id :=
      List.mem_map_of_mem _ hn'
    rw [hids] at hid'
    have hge := ids_cloneNodesInitList g.nodes g.nextId n'.id hid'
    have hlt := hwf.2.1 n hn
    omega

/-- C7 witness: the theorem applied to the concretely built two-host
graph. -/
theorem claim_C7_clone_structural_witness :
    (cloneGraph exC6Graph).hosts = exC6Graph.hosts ∧
    (cloneGraph exC6Graph).hostToHead =
      exC6Graph.hostToHead.map
        (fun kv => (kv.1, cloneF exC6Graph kv.2)) ∧
    (cloneGraph exC6Graph).hostToTail =
      exC6Graph.hostToTail.map
        (fun kv => (kv.1, cloneF exC6Graph kv.2)) ∧
    (cloneGraph exC6Graph).nodes.length = exC6Graph.nodes.length ∧
    (∀ n ∈ exC6Graph.nodes, ∃ n' ∈ (cloneGraph exC6Graph).nodes,
      n'.id = cloneF exC6Graph n.id ∧ n'.logEvents = n.logEvents ∧
      n'.host = n.host ∧ n'.isHeadInner = n.isHeadInner ∧
      n'.isTailInner = n.isTailInner ∧
      n'.prev = n.prev.map (cloneF exC6Graph) ∧
      n'.next = n.next.map (cloneF exC6Graph) ∧
      n'.children = n.children.map (cloneF exC6Graph)) ∧
    (∀ n ∈ exC6Graph.nodes, ∀ n' ∈ (cloneGraph exC6Graph).nodes,
      n.id ≠ n'.id) :=
  claim_C7_clone_structural exC6Graph (by decide)
